import Mathlib

/-!
# wp-mirror: version store, sync coordinator, download queue and workers

A shallow embedding of the Go sources `redis_storage.go`, `download_checker.go`,
`download_worker.go`, `wp_updater.go` and of the update-check and bulk handlers of
`server.go`.

* Redis is a state value: the hashes (one entry per key and field), the list
  `download_queue` and the string key `wp_updater_lock` with its expiry.
* A value kept in Redis is a JSON text; it is represented by the document that
  `encoding/json` reads from it (`Doc`).
* What the program cannot decide itself is an input: which Redis or file
  system call fails, the order in which a Go `range` visits a map, the answer
  of an HTTP request (`Env`), the local files (`FS`), the upstream manifests
  (`Upstream`) and the clock (`now`).
-/

set_option autoImplicit false

namespace WpMirror

/-! ## Go strings -/

/-- Go's `a > b` on strings, written `strLess b a`: lexicographic comparison.  Go compares
bytes; on UTF-8 text that is the comparison of the code points made here. -/
def strLess (a b : String) : Prop := a.toList < b.toList

instance strLessDecidable (a b : String) : Decidable (strLess a b) := by
  unfold strLess; infer_instance

/-! ## JSON documents and `encoding/json` -/

/-- A member value of a JSON object, as far as decoding into string and bool fields can
tell values apart. -/
inductive JVal where
  | null
  | bool (b : Bool)
  | str (s : String)
  | other
  deriving DecidableEq, Repr

/-- A text handed to `json.Unmarshal`: not JSON at all, the text `null`, a JSON value that
is neither `null` nor an object, or an object with its members in order. -/
inductive Doc where
  | invalid
  | null
  | scalar
  | obj (members : List (String × JVal))
  deriving DecidableEq, Repr

/-- Errors of the Go functions, by origin. -/
inductive Err where
  | redis
  | redisNil
  | json
  | noVersions
  | http
  | badStatus
  | fs
  | unknownType
  deriving DecidableEq, Repr

deriving instance DecidableEq for Except

/-- Case folding of `encoding/json` when it matches a member name with a field: ASCII
letters fold together, and so do the long s with `s` and the Kelvin sign with `k`. -/
def foldRune (c : Char) : Char :=
  if c = Char.ofNat 0x17F then 's'
  else if c = Char.ofNat 0x212A then 'k'
  else c.toLower

/-- Whether the member name `key` selects the field tagged `tag`. -/
def keyMatches (key tag : String) : Bool :=
  key.toList.map foldRune = tag.toList.map foldRune

/-- Decoding one member value into a string field: a string is stored, `null` leaves the
field as it is, anything else is a type error. -/
def setString (val : JVal) (old : String) : Except Err String :=
  match val with
  | .str s => .ok s
  | .null => .ok old
  | _ => .error .json

/-- Decoding one member value into a bool field. -/
def setBool (val : JVal) (old : Bool) : Except Err Bool :=
  match val with
  | .bool b => .ok b
  | .null => .ok old
  | _ => .error .json

/-! ## Records (`redis_storage.go`, `download_checker.go`) -/

structure CoreVersion where
  Version : String := ""
  PHPVersion : String := ""
  MySQLVersion : String := ""
  NewBundled : String := ""
  PartialVersion : Bool := false
  Package : String := ""
  Current : String := ""
  Locale : String := ""
  deriving DecidableEq, Repr

structure PluginVersion where
  Slug : String := ""
  NewVersion : String := ""
  URL : String := ""
  Package : String := ""
  deriving DecidableEq, Repr

structure ThemeVersion where
  Theme : String := ""
  NewVersion : String := ""
  URL : String := ""
  Package : String := ""
  deriving DecidableEq, Repr

/-- The queued unit of work; `Typ` is the Go field `Type` (a reserved word here). -/
structure DownloadItem where
  Typ : String := ""
  Version : String := ""
  URL : String := ""
  deriving DecidableEq, Repr

/-- The document `json.Marshal` writes for a `CoreVersion`: every field, under its tag. -/
def marshalCore (v : CoreVersion) : Doc :=
  .obj [("version", .str v.Version), ("php_version", .str v.PHPVersion),
    ("mysql_version", .str v.MySQLVersion), ("new_bundled", .str v.NewBundled),
    ("partial_version", .bool v.PartialVersion), ("package", .str v.Package),
    ("current", .str v.Current), ("locale", .str v.Locale)]

def marshalPlugin (v : PluginVersion) : Doc :=
  .obj [("slug", .str v.Slug), ("new_version", .str v.NewVersion), ("url", .str v.URL),
    ("package", .str v.Package)]

def marshalTheme (v : ThemeVersion) : Doc :=
  .obj [("theme", .str v.Theme), ("new_version", .str v.NewVersion), ("url", .str v.URL),
    ("package", .str v.Package)]

def marshalItem (v : DownloadItem) : Doc :=
  .obj [("type", .str v.Typ), ("version", .str v.Version), ("url", .str v.URL)]

/-- One object member decoded into a `CoreVersion`; a name that selects no field is skipped. -/
def setCoreMember (v : CoreVersion) (m : String × JVal) : Except Err CoreVersion :=
  if keyMatches m.1 "version" then (setString m.2 v.Version).map fun x => { v with Version := x }
  else if keyMatches m.1 "php_version" then
    (setString m.2 v.PHPVersion).map fun x => { v with PHPVersion := x }
  else if keyMatches m.1 "mysql_version" then
    (setString m.2 v.MySQLVersion).map fun x => { v with MySQLVersion := x }
  else if keyMatches m.1 "new_bundled" then
    (setString m.2 v.NewBundled).map fun x => { v with NewBundled := x }
  else if keyMatches m.1 "partial_version" then
    (setBool m.2 v.PartialVersion).map fun x => { v with PartialVersion := x }
  else if keyMatches m.1 "package" then
    (setString m.2 v.Package).map fun x => { v with Package := x }
  else if keyMatches m.1 "current" then
    (setString m.2 v.Current).map fun x => { v with Current := x }
  else if keyMatches m.1 "locale" then
    (setString m.2 v.Locale).map fun x => { v with Locale := x }
  else .ok v

def setPluginMember (v : PluginVersion) (m : String × JVal) : Except Err PluginVersion :=
  if keyMatches m.1 "slug" then (setString m.2 v.Slug).map fun x => { v with Slug := x }
  else if keyMatches m.1 "new_version" then
    (setString m.2 v.NewVersion).map fun x => { v with NewVersion := x }
  else if keyMatches m.1 "url" then (setString m.2 v.URL).map fun x => { v with URL := x }
  else if keyMatches m.1 "package" then
    (setString m.2 v.Package).map fun x => { v with Package := x }
  else .ok v

def setThemeMember (v : ThemeVersion) (m : String × JVal) : Except Err ThemeVersion :=
  if keyMatches m.1 "theme" then (setString m.2 v.Theme).map fun x => { v with Theme := x }
  else if keyMatches m.1 "new_version" then
    (setString m.2 v.NewVersion).map fun x => { v with NewVersion := x }
  else if keyMatches m.1 "url" then (setString m.2 v.URL).map fun x => { v with URL := x }
  else if keyMatches m.1 "package" then
    (setString m.2 v.Package).map fun x => { v with Package := x }
  else .ok v

/-- The members of an object decoded one after the other into the value `into`. -/
def decodeMembers {α : Type} (step : α → String × JVal → Except Err α) :
    List (String × JVal) → α → Except Err α
  | [], into => .ok into
  | m :: ms, into =>
    match step into m with
    | .error x => .error x
    | .ok into1 => decodeMembers step ms into1

/-- The call `json.Unmarshal(text, &into)` for a struct: the members present in the object
overwrite their fields, the other fields of `into` stay; `null` changes nothing. -/
def unmarshalInto {α : Type} (step : α → String × JVal → Except Err α) (d : Doc) (into : α) :
    Except Err α :=
  match d with
  | .invalid => .error .json
  | .null => .ok into
  | .scalar => .error .json
  | .obj ms => decodeMembers step ms into

def unmarshalCore (d : Doc) (into : CoreVersion) : Except Err CoreVersion :=
  unmarshalInto setCoreMember d into

def unmarshalPlugin (d : Doc) (into : PluginVersion) : Except Err PluginVersion :=
  unmarshalInto setPluginMember d into

def unmarshalTheme (d : Doc) (into : ThemeVersion) : Except Err ThemeVersion :=
  unmarshalInto setThemeMember d into

/-! ## Redis -/

/-- An association list update: the first entry under `k` is replaced, or a new entry is
added at the end. -/
def put {κ β : Type} [DecidableEq κ] (k : κ) (v : β) : List (κ × β) → List (κ × β)
  | [] => [(k, v)]
  | e :: es => if e.1 = k then (k, v) :: es else e :: put k v es

/-- The value of the first entry under `k`. -/
def get {κ β : Type} [DecidableEq κ] (k : κ) : List (κ × β) → Option β
  | [] => none
  | e :: es => if e.1 = k then some e.2 else get k es

/-- The fields and values of one hash, as `HGETALL` answers them. -/
abbrev Hash := List (String × Doc)

/-- The Redis data the program works on.  `hashes` holds every hash field under the pair
(key, field), so a key exists exactly when it has a field; `queue` is the list
`download_queue`; `lock` is the expiry instant of the key `wp_updater_lock`, in seconds,
when the key is set. -/
structure Redis where
  hashes : List ((String × String) × Doc) := []
  queue : List Doc := []
  lock : Option Nat := none
  deriving DecidableEq, Repr

/-- The calls that can fail for reasons outside the program. -/
inductive Cmd where
  | hgetall (key : String)
  | hset (key field : String)
  | keys (pattern : String)
  | rpush (key : String) (nth : Nat)
  | setnx (key : String)
  | del (key : String)
  | mkdirAll (path : String)
  | create (path : String)
  | copy (path : String)
  deriving DecidableEq, Repr

/-- The surroundings of one run: which calls fail, in which order `range` visits the
entries of the map read from a key (always each entry once), and the status an HTTP GET
of a URL answers with (`none`: the request itself fails). -/
structure Env where
  faults : Cmd → Bool
  order : String → Hash → Hash
  order_perm : ∀ (k : String) (h : Hash), (order k h).Perm h
  http : String → Option Nat

/-- The surroundings in which nothing fails, maps are visited in stored order and every
download answers 200. -/
def Env.calm : Env :=
  { faults := fun _ => false, order := fun _ h => h, order_perm := fun _ _ => List.Perm.refl _,
    http := fun _ => some 200 }

/-- The entries of the hash at `key`. -/
def hashAt (s : Redis) (key : String) : Hash :=
  s.hashes.filterMap fun e => if e.1.1 = key then some (e.1.2, e.2) else none

/-- The command `HGETALL key`. -/
def HGetAll (e : Env) (s : Redis) (key : String) : Except Err Hash :=
  if e.faults (.hgetall key) then .error .redis else .ok (hashAt s key)

/-- The command `HSET key field value`. -/
def HSet (e : Env) (key field : String) (val : Doc) (s : Redis) : Except Err Unit × Redis :=
  if e.faults (.hset key field) then (.error .redis, s)
  else (.ok (), { s with hashes := put (key, field) val s.hashes })

/-- The command `KEYS pre*`: the existing keys that start with `pre`.  The list and the
lock carry names that start with neither `plugins:` nor `themes:`. -/
def Keys (e : Env) (s : Redis) (pre : String) : Except Err (List String) :=
  if e.faults (.keys (pre ++ "*")) then .error .redis
  else .ok (((s.hashes.map fun en => en.1.1).dedup).filter fun k => pre.toList.isPrefixOf k.toList)

def downloadQueue : String := "download_queue"

def lockKey : String := "wp_updater_lock"

/-- The lease of the lock: 65 minutes, in seconds. -/
def lockDuration : Nat := 65 * 60

/-- The command `RPUSH download_queue value`, the `nth` push of a run. -/
def RPush (e : Env) (nth : Nat) (val : Doc) (s : Redis) : Except Err Unit × Redis :=
  if e.faults (.rpush downloadQueue nth) then (.error .redis, s)
  else (.ok (), { s with queue := s.queue ++ [val] })

/-- The command `SET wp_updater_lock locked NX EX lockDuration` at the instant `now`: the
key is written when it is absent or expired. -/
def SetNX (e : Env) (now : Nat) (s : Redis) : Except Err Bool × Redis :=
  if e.faults (.setnx lockKey) then (.error .redis, s)
  else
    match s.lock with
    | some expiry =>
      if now < expiry then (.ok false, s) else (.ok true, { s with lock := some (now + lockDuration) })
    | none => (.ok true, { s with lock := some (now + lockDuration) })

/-- The command `DEL wp_updater_lock`. -/
def Del (e : Env) (s : Redis) : Except Err Unit × Redis :=
  if e.faults (.del lockKey) then (.error .redis, s) else (.ok (), { s with lock := none })

/-! ## The version store (`redis_storage.go`) -/

/-- The loop of `GetCoreVersions`, `GetPluginVersions` and `GetThemeVersions`: every value
is decoded into a fresh record; the first value that does not decode ends the call. -/
def decodeEach {α : Type} (dec : Doc → Except Err α) : Hash → Except Err (List α)
  | [] => .ok []
  | e :: es =>
    match dec e.2 with
    | .error x => .error x
    | .ok v =>
      match decodeEach dec es with
      | .error x => .error x
      | .ok vs => .ok (v :: vs)

def SetCoreVersions (e : Env) : List CoreVersion → Redis → Except Err Unit × Redis
  | [], s => (.ok (), s)
  | v :: vs, s =>
    match HSet e "core_versions" v.Version (marshalCore v) s with
    | (.error x, s1) => (.error x, s1)
    | (.ok _, s1) => SetCoreVersions e vs s1

def GetCoreVersions (e : Env) (s : Redis) : Except Err (List CoreVersion) :=
  match HGetAll e s "core_versions" with
  | .error x => .error x
  | .ok data => decodeEach (fun d => unmarshalCore d {}) (e.order "core_versions" data)

def SetPluginVersions (e : Env) (pluginFile : String) :
    List PluginVersion → Redis → Except Err Unit × Redis
  | [], s => (.ok (), s)
  | v :: vs, s =>
    match HSet e ("plugins:" ++ pluginFile) v.NewVersion (marshalPlugin v) s with
    | (.error x, s1) => (.error x, s1)
    | (.ok _, s1) => SetPluginVersions e pluginFile vs s1

def GetPluginVersions (e : Env) (s : Redis) (pluginFile : String) :
    Except Err (List PluginVersion) :=
  match HGetAll e s ("plugins:" ++ pluginFile) with
  | .error x => .error x
  | .ok data =>
    decodeEach (fun d => unmarshalPlugin d {}) (e.order ("plugins:" ++ pluginFile) data)

def SetThemeVersions (e : Env) (themeSlug : String) :
    List ThemeVersion → Redis → Except Err Unit × Redis
  | [], s => (.ok (), s)
  | v :: vs, s =>
    match HSet e ("themes:" ++ themeSlug) v.NewVersion (marshalTheme v) s with
    | (.error x, s1) => (.error x, s1)
    | (.ok _, s1) => SetThemeVersions e themeSlug vs s1

def GetThemeVersions (e : Env) (s : Redis) (themeSlug : String) :
    Except Err (List ThemeVersion) :=
  match HGetAll e s ("themes:" ++ themeSlug) with
  | .error x => .error x
  | .ok data =>
    decodeEach (fun d => unmarshalTheme d {}) (e.order ("themes:" ++ themeSlug) data)

/-- The slice `key[n:]`. -/
def dropBytes (n : Nat) (key : String) : String := String.mk (key.toList.drop n)

def ListAllPluginFiles (e : Env) (s : Redis) : Except Err (List String) :=
  match Keys e s "plugins:" with
  | .error x => .error x
  | .ok keys => .ok (keys.map (dropBytes 8))

def ListAllThemeSlugs (e : Env) (s : Redis) : Except Err (List String) :=
  match Keys e s "themes:" with
  | .error x => .error x
  | .ok keys => .ok (keys.map (dropBytes 7))

/-- The loop `for version, data := range versions` of `GetLatestPluginVersion` and
`GetLatestThemeVersion`, with the variables `latestVersion` and `latestVersionNumber`:
a field greater than the greatest seen so far is decoded into `latestVersion`. -/
def latestLoop {α : Type} (unmarshal : Doc → α → Except Err α) :
    Hash → α → String → Except Err α
  | [], latestVersion, _ => .ok latestVersion
  | (version, data) :: rest, latestVersion, latestVersionNumber =>
    if strLess latestVersionNumber version then
      match unmarshal data latestVersion with
      | .error x => .error x
      | .ok decoded => latestLoop unmarshal rest decoded version
    else latestLoop unmarshal rest latestVersion latestVersionNumber

def GetLatestPluginVersion (e : Env) (s : Redis) (pluginFile : String) :
    Except Err PluginVersion :=
  match HGetAll e s ("plugins:" ++ pluginFile) with
  | .error x => .error x
  | .ok versions =>
    if versions.length = 0 then .error .noVersions
    else latestLoop unmarshalPlugin (e.order ("plugins:" ++ pluginFile) versions) {} ""

def GetLatestThemeVersion (e : Env) (s : Redis) (themeSlug : String) :
    Except Err ThemeVersion :=
  match HGetAll e s ("themes:" ++ themeSlug) with
  | .error x => .error x
  | .ok versions =>
    if versions.length = 0 then .error .noVersions
    else latestLoop unmarshalTheme (e.order ("themes:" ++ themeSlug) versions) {} ""

/-! ## Local files and paths -/

/-- What `os.Stat` finds at a path. -/
inductive Stat where
  | present
  | notExist
  | failure
  deriving DecidableEq, Repr

/-- The local files: the answer of `os.Stat` for every path. -/
abbrev FS := String → Stat

/-- The names between the separators of a path. -/
def splitPath : List Char → List (List Char)
  | [] => [[]]
  | c :: cs =>
    if c = '/' then [] :: splitPath cs
    else
      match splitPath cs with
      | [] => [[c]]
      | x :: xs => (c :: x) :: xs

/-- One name of a path taken up by `filepath.Clean`; `kept` holds the names kept so far,
the last one first. -/
def cleanStep (rooted : Bool) (kept : List (List Char)) (name : List Char) : List (List Char) :=
  if name = [] ∨ name = ['.'] then kept
  else if name = ['.', '.'] then
    match kept with
    | [] => if rooted then [] else [name]
    | top :: rest => if top = ['.', '.'] then name :: kept else rest
  else name :: kept

/-- The names joined with the separator. -/
def joinNames : List (List Char) → List Char
  | [] => []
  | [x] => x
  | x :: y :: rest => x ++ '/' :: joinNames (y :: rest)

/-- The function `filepath.Clean` on Unix paths. -/
def filepathClean (p : String) : String :=
  let rooted : Bool := p.toList.head? = some '/'
  let body := joinNames ((splitPath p.toList).foldl (cleanStep rooted) []).reverse
  if rooted then String.mk ('/' :: body)
  else if body = [] then "." else String.mk body

/-- The function `filepath.Join`: the non-empty elements joined and cleaned. -/
def filepathJoin (elems : List String) : String :=
  match elems.filter fun x => x ≠ "" with
  | [] => ""
  | parts => filepathClean (String.mk (joinNames (parts.map String.toList)))

def publicFolder : String := "./public"

def fileExists (fs : FS) (filename : String) : Bool :=
  fs filename ≠ Stat.notExist

/-! ## The download checker (`download_checker.go`) -/

/-- The path `checkAndQueueDownloads` looks at for a core version. -/
def coreFile (version : String) : String :=
  filepathJoin [publicFolder, "wordpress-" ++ version ++ ".zip"]

/-- The path `checkAndQueueDownloads` looks at for the latest version of a plugin or a
theme: the file name is `fmt.Sprintf("%s.%s.zip", identifier, version)`. -/
def packageFile (identifier version : String) : String :=
  filepathJoin [publicFolder, identifier ++ "." ++ version ++ ".zip"]

/-- The loop over the core versions: an item for every version whose file is not there. -/
def coreItems (fs : FS) (coreVersions : List CoreVersion) : List DownloadItem :=
  coreVersions.filterMap fun core =>
    if !fileExists fs (coreFile core.Version) then
      some { Typ := "core", Version := core.Version, URL := core.Package }
    else none

/-- The loop over the plugin files: a plugin whose latest version cannot be read is
skipped (`continue`). -/
def pluginItems (e : Env) (fs : FS) (s : Redis) (pluginFiles : List String) : List DownloadItem :=
  pluginFiles.filterMap fun pluginFile =>
    match GetLatestPluginVersion e s pluginFile with
    | .error _ => none
    | .ok latestVersion =>
      if !fileExists fs (packageFile pluginFile latestVersion.NewVersion) then
        some { Typ := "plugin", Version := latestVersion.NewVersion, URL := latestVersion.Package }
      else none

/-- The loop over the theme slugs. -/
def themeItems (e : Env) (fs : FS) (s : Redis) (themeSlugs : List String) : List DownloadItem :=
  themeSlugs.filterMap fun themeSlug =>
    match GetLatestThemeVersion e s themeSlug with
    | .error _ => none
    | .ok latestVersion =>
      if !fileExists fs (packageFile themeSlug latestVersion.NewVersion) then
        some { Typ := "theme", Version := latestVersion.NewVersion, URL := latestVersion.Package }
      else none

/-- The loop that stores the download items in the queue; `nth` counts the items.  An item
whose `RPUSH` fails is dropped and the loop goes on.  (`json.Marshal` cannot fail on a
`DownloadItem`, so its error branch is not there.) -/
def pushItems (e : Env) : Nat → List DownloadItem → Redis → Redis
  | _, [], s => s
  | nth, item :: rest, s => pushItems e (nth + 1) rest (RPush e nth (marshalItem item) s).2

def checkAndQueueDownloads (e : Env) (fs : FS) (s : Redis) : Except Err Unit × Redis :=
  match GetCoreVersions e s with
  | .error x => (.error x, s)
  | .ok coreVersions =>
    match ListAllPluginFiles e s with
    | .error x => (.error x, s)
    | .ok pluginFiles =>
      match ListAllThemeSlugs e s with
      | .error x => (.error x, s)
      | .ok themeSlugs =>
        let downloadItems :=
          coreItems fs coreVersions ++ pluginItems e fs s pluginFiles ++ themeItems e fs s themeSlugs
        (.ok (), pushItems e 0 downloadItems s)

/-- One pass of the loop of `BackgroundDownloadChecker`: the error of the check is only
printed. -/
def BackgroundDownloadChecker (e : Env) (fs : FS) (s : Redis) : Redis :=
  (checkAndQueueDownloads e fs s).2

/-! ## The download worker (`download_worker.go`) -/

/-- A path and the directories above it, as `os.MkdirAll` creates them. -/
def pathChain (p : String) : List String :=
  (((splitPath p.toList).inits.map joinNames).filter fun x => x ≠ []).map String.mk

/-- The path `downloadFile` writes to. -/
def downloadTarget (item : DownloadItem) : String :=
  filepathJoin [filepathJoin [publicFolder, item.Typ], item.Typ ++ "-" ++ item.Version ++ ".zip"]

def downloadFile (e : Env) (item : DownloadItem) (fs : FS) : Except Err Unit × FS :=
  match e.http item.URL with
  | none => (.error .http, fs)
  | some status =>
    if status ≠ 200 then (.error .badStatus, fs)
    else
      let dir := filepathJoin [publicFolder, item.Typ]
      if e.faults (.mkdirAll dir) then (.error .fs, fs)
      else
        let fs1 : FS := fun p => if p ∈ pathChain dir then Stat.present else fs p
        let filename := filepathJoin [dir, item.Typ ++ "-" ++ item.Version ++ ".zip"]
        if e.faults (.create filename) then (.error .fs, fs1)
        else
          let fs2 : FS := fun p => if p = filename then Stat.present else fs1 p
          if e.faults (.copy filename) then (.error .fs, fs2) else (.ok (), fs2)

/-- The function `updateRedisInfo`.  The plugin and theme branches read `item.Slug`, a field
the declaration of `DownloadItem` does not have; it is the parameter `slug`. -/
def updateRedisInfo (e : Env) (slug : DownloadItem → String) (item : DownloadItem) (s : Redis) :
    Except Err Unit × Redis :=
  if item.Typ = "core" then
    let coreVersion : CoreVersion := { Version := item.Version, Package := item.URL }
    HSet e "core_versions" item.Version (marshalCore coreVersion) s
  else if item.Typ = "plugin" then
    let pluginVersion : PluginVersion := { NewVersion := item.Version, Package := item.URL }
    HSet e ("plugins:" ++ slug item) item.Version (marshalPlugin pluginVersion) s
  else if item.Typ = "theme" then
    let themeVersion : ThemeVersion := { NewVersion := item.Version, Package := item.URL }
    HSet e ("themes:" ++ slug item) item.Version (marshalTheme themeVersion) s
  else (.error .unknownType, s)

/-! ## The updater (`wp_updater.go`) -/

/-- The upstream manifests: what the GET of each API URL, reading the body and decoding it
give; `none` when one of these steps fails. -/
structure Upstream where
  core : Option (List CoreVersion)
  plugins : Option (List PluginVersion)
  themes : Option (List ThemeVersion)

def acquireLock (e : Env) (now : Nat) (s : Redis) : Bool × Redis :=
  match SetNX e now s with
  | (.error _, s1) => (false, s1)
  | (.ok success, s1) => (success, s1)

def releaseLock (e : Env) (s : Redis) : Redis :=
  (Del e s).2

def updateCoreVersions (e : Env) (up : Upstream) (s : Redis) : Redis :=
  match up.core with
  | none => s
  | some offers =>
    match GetCoreVersions e s with
    | .error _ => s
    | .ok existingVersions =>
      offers.foldl
        (fun st newVersion =>
          if existingVersions.any fun existingVersion => newVersion.Version = existingVersion.Version
          then st
          else (SetCoreVersions e [newVersion] st).2)
        s

/-- The body of the loop of `updatePlugins` for one manifest entry. -/
def updatePlugin (e : Env) (st : Redis) (plugin : PluginVersion) : Redis :=
  let add (existingVersions : List PluginVersion) : Redis :=
    if existingVersions.any fun existingVersion => plugin.NewVersion = existingVersion.NewVersion
    then st
    else (SetPluginVersions e plugin.Slug [plugin] st).2
  match GetPluginVersions e st plugin.Slug with
  | .error x => if x = Err.redisNil then add [] else st
  | .ok existingVersions => add existingVersions

def updatePlugins (e : Env) (up : Upstream) (s : Redis) : Redis :=
  match up.plugins with
  | none => s
  | some plugins => plugins.foldl (updatePlugin e) s

/-- The body of the loop of `updateThemes` for one manifest entry. -/
def updateTheme (e : Env) (st : Redis) (theme : ThemeVersion) : Redis :=
  let add (existingVersions : List ThemeVersion) : Redis :=
    if existingVersions.any fun existingVersion => theme.NewVersion = existingVersion.NewVersion
    then st
    else (SetThemeVersions e theme.Theme [theme] st).2
  match GetThemeVersions e st theme.Theme with
  | .error x => if x = Err.redisNil then add [] else st
  | .ok existingVersions => add existingVersions

def updateThemes (e : Env) (up : Upstream) (s : Redis) : Redis :=
  match up.themes with
  | none => s
  | some themes => themes.foldl (updateTheme e) s

def updateWordPressInfo (e : Env) (up : Upstream) (s : Redis) : Redis :=
  updateThemes e up (updatePlugins e up (updateCoreVersions e up s))

/-- One pass of the loop of `runWPUpdater`, started at the instant `now`. -/
def runWPUpdater (e : Env) (up : Upstream) (now : Nat) (s : Redis) : Redis :=
  match acquireLock e now s with
  | (true, s1) => releaseLock e (updateWordPressInfo e up s1)
  | (false, s1) => s1

/-! ## The read API (`server.go`) -/

/-- A `gin.H` with string and bool values: a JSON object, its members by name. -/
abbrev Obj := List (String × JVal)

/-- The body a handler answers with: `gin.H{"error": message}`, `gin.H{"updates": list}`
with a list of `gin.H`, or the map `response` from identifier to `gin.H`. -/
inductive Body where
  | error (message : String)
  | updates (list : List Obj)
  | entries (response : List (String × Obj))
  deriving DecidableEq, Repr

/-- The answer of a handler: the HTTP status and the JSON body. -/
structure Response where
  status : Nat
  body : Body
  deriving DecidableEq, Repr

def handleCoreUpdateCheck (e : Env) (s : Redis) : Response :=
  match GetCoreVersions e s with
  | .error _ => { status := 500, body := .error "Failed to retrieve core versions" }
  | .ok versions =>
    match versions with
    | [] => { status := 404, body := .error "No core versions available" }
    | latestVersion :: _ =>
      { status := 200,
        body := .updates
          [[("version", .str latestVersion.Version),
            ("php_version", .str latestVersion.PHPVersion),
            ("mysql_version", .str latestVersion.MySQLVersion),
            ("new_bundled", .str latestVersion.NewBundled),
            ("partial_version", .bool latestVersion.PartialVersion),
            ("package", .str latestVersion.Package),
            ("current", .str latestVersion.Current),
            ("locale", .str latestVersion.Locale)]] }

/-- The body of the loop of `handlePluginInfoBulk` for one entry of the request. -/
def pluginInfoStep (e : Env) (s : Redis) (response : List (String × Obj))
    (entry : String × String) : List (String × Obj) :=
  match GetLatestPluginVersion e s entry.1 with
  | .error _ => response
  | .ok latestVersion =>
    put entry.1
      [("slug", .str entry.2), ("new_version", .str latestVersion.NewVersion),
        ("url", .str latestVersion.URL), ("package", .str latestVersion.Package)]
      response

/-- The handler `handlePluginInfoBulk`. `requestBody` is the map `ShouldBindJSON` reads from
the body, its entries in the order the `range` visits them; `none` when the body does not
bind to a `map[string]string`. -/
def handlePluginInfoBulk (e : Env) (s : Redis) (requestBody : Option (List (String × String))) :
    Response :=
  match requestBody with
  | none => { status := 400, body := .error "Invalid request body" }
  | some entries => { status := 200, body := .entries (entries.foldl (pluginInfoStep e s) []) }

/-- The body of the loop of `handleThemeInfoBulk` for one slug of the request. -/
def themeInfoStep (e : Env) (s : Redis) (response : List (String × Obj))
    (themeSlug : String) : List (String × Obj) :=
  match GetLatestThemeVersion e s themeSlug with
  | .error _ => response
  | .ok latestVersion =>
    put themeSlug
      [("theme", .str themeSlug), ("new_version", .str latestVersion.NewVersion),
        ("url", .str latestVersion.URL), ("package", .str latestVersion.Package)]
      response

/-- The handler `handleThemeInfoBulk`; `none` when the body does not bind to a `[]string`. -/
def handleThemeInfoBulk (e : Env) (s : Redis) (requestBody : Option (List String)) : Response :=
  match requestBody with
  | none => { status := 400, body := .error "Invalid request body" }
  | some slugs => { status := 200, body := .entries (slugs.foldl (themeInfoStep e s) []) }

/-! ## Store states written by the program -/

/-- Every value of the hash is the document `json.Marshal` writes for a record, stored in
the field that is the version of the record: what `HSet` calls of the program leave. -/
def Marshalled {α : Type} (marshal : α → Doc) (ver : α → String) (h : Hash) : Prop :=
  ∀ en ∈ h, ∃ v, en.2 = marshal v ∧ ver v = en.1

/-- The state after the calls `SetPluginVersions(pluginFile, b)` for the lists `b` of
`batches`, one after the other. -/
def afterSetPlugin (e : Env) (pluginFile : String) (batches : List (List PluginVersion))
    (s : Redis) : Redis :=
  batches.foldl (fun st b => (SetPluginVersions e pluginFile b st).2) s

/-- The state after the calls `SetThemeVersions(themeSlug, b)` for the lists `b` of
`batches`, one after the other. -/
def afterSetTheme (e : Env) (themeSlug : String) (batches : List (List ThemeVersion))
    (s : Redis) : Redis :=
  batches.foldl (fun st b => (SetThemeVersions e themeSlug b st).2) s

/-- The items of a run whose `RPUSH` succeeds, `nth` counting the items as in `pushItems`. -/
def pushedItems (e : Env) : Nat → List DownloadItem → List DownloadItem
  | _, [] => []
  | nth, item :: rest =>
    if e.faults (.rpush downloadQueue nth) then pushedItems e (nth + 1) rest
    else item :: pushedItems e (nth + 1) rest

/-! ## Sample data (`populate_redis_dummy_data.go`) -/

/-- The first core version of the dummy data. -/
def sampleCore : CoreVersion :=
  { Version := "6.2.1", PHPVersion := "5.6.20", MySQLVersion := "5.0", NewBundled := "6.1",
    PartialVersion := false,
    Package := "https://wp-mirror.blogvault.net/release/wordpress-6.2.1.zip",
    Current := "6.2.1", Locale := "en_US" }

/-- The store that holds `sampleCore` and nothing else. -/
def sampleStore : Redis :=
  { hashes := [(("core_versions", "6.2.1"), marshalCore sampleCore)] }

/-- The download item `checkAndQueueDownloads` builds from `sampleCore`. -/
def sampleCoreItem : DownloadItem :=
  { Typ := "core", Version := "6.2.1",
    URL := "https://wp-mirror.blogvault.net/release/wordpress-6.2.1.zip" }

/-- The local file state without any file. -/
def noFiles : FS := fun _ => Stat.notExist

/-- The store `sampleStore` while another instance holds the lock until the instant 3900. -/
def lockedStore : Redis :=
  { sampleStore with lock := some 3900 }

/-- The upstream that answers no request. -/
def Upstream.down : Upstream :=
  { core := none, plugins := none, themes := none }

/-- A sequence of `HSET`s applied to the hashes, first to last. -/
def applyWrites {κ β : Type} [DecidableEq κ] (ws : List (κ × β)) (l : List (κ × β)) :
    List (κ × β) :=
  ws.foldl (fun acc w => put w.1 w.2 acc) l

/-- The value `d` is the document `json.Marshal` writes for the record it decodes to, and
the version of that record is `field`. -/
def IsMarshal {α : Type} (unmarshal : Doc → α → Except Err α) (zero : α) (marshal : α → Doc)
    (ver : α → String) (field : String) (d : Doc) : Prop :=
  match unmarshal d zero with
  | .ok v => marshal v = d ∧ ver v = field
  | .error _ => False

instance IsMarshal.decidable {α : Type} (unmarshal : Doc → α → Except Err α) (zero : α)
    (marshal : α → Doc) (ver : α → String) (field : String) (d : Doc) :
    Decidable (IsMarshal unmarshal zero marshal ver field d) := by
  unfold IsMarshal
  split <;> infer_instance

/-- A version store as this program writes it (field = version, value = serialized record):
Redis keeps one value per key and field, and every value under `core_versions`, under a key
`plugins:...` and under a key `themes:...` is the marshalled record of the version that is
its field. -/
def StoreWritten (s : Redis) : Prop :=
  (s.hashes.map Prod.fst).Nodup ∧
  ∀ en ∈ s.hashes,
    (en.1.1 = "core_versions" →
      IsMarshal unmarshalCore {} marshalCore CoreVersion.Version en.1.2 en.2) ∧
    ("plugins:".toList.isPrefixOf en.1.1.toList = true →
      IsMarshal unmarshalPlugin {} marshalPlugin PluginVersion.NewVersion en.1.2 en.2) ∧
    ("themes:".toList.isPrefixOf en.1.1.toList = true →
      IsMarshal unmarshalTheme {} marshalTheme ThemeVersion.NewVersion en.1.2 en.2)

instance StoreWritten.decidable (s : Redis) : Decidable (StoreWritten s) := by
  unfold StoreWritten
  infer_instance

/-- What a run of `checkAndQueueDownloads` adds to the queue: the elements of the queue
after the run that come after those it started with. -/
def pushedBy (e : Env) (fs : FS) (s : Redis) : List Doc :=
  (checkAndQueueDownloads e fs s).2.queue.drop s.queue.length

/-- Manifests with one entry each that the sample store does not hold. -/
def sampleUpstream : Upstream :=
  { core := some [{ Version := "6.1.3", PHPVersion := "5.6.20", MySQLVersion := "5.0",
                    NewBundled := "6.0",
                    Package := "https://wp-mirror.blogvault.net/release/wordpress-6.1.3.zip",
                    Current := "6.1.3", Locale := "en_US" }, sampleCore],
    plugins := some [{ Slug := "akismet", NewVersion := "5.1",
                       URL := "https://wordpress.org/plugins/akismet/",
                       Package := "https://wp-mirror.blogvault.net/plugin/akismet.5.1.zip" }],
    themes := some [{ Theme := "twentytwentytwo", NewVersion := "1.4",
                      URL := "https://wordpress.org/themes/twentytwentytwo/",
                      Package := "https://wp-mirror.blogvault.net/theme/twentytwentytwo.1.4.zip" }] }

/-- The surroundings in which nothing fails and every map is visited in the reverse of
the stored order. -/
def Env.reversed : Env :=
  { faults := fun _ => false, order := fun _ h => h.reverse,
    order_perm := fun _ h => List.reverse_perm h, http := fun _ => some 200 }

/-- The surroundings in which the read of `core_versions` fails and nothing else does. -/
def Env.coreDown : Env :=
  { faults := fun c => decide (c = Cmd.hgetall "core_versions"), order := fun _ h => h,
    order_perm := fun _ _ => List.Perm.refl _, http := fun _ => some 200 }

/-- The surroundings in which the read of the hash of the plugin akismet fails and nothing
else does. -/
def Env.akismetDown : Env :=
  { faults := fun c => decide (c = Cmd.hgetall "plugins:akismet/akismet.php"),
    order := fun _ h => h, order_perm := fun _ _ => List.Perm.refl _, http := fun _ => some 200 }

/-- The plugin records of the dummy data. -/
def sampleAkismet : PluginVersion :=
  { Slug := "akismet", NewVersion := "5.1", URL := "https://wordpress.org/plugins/akismet/",
    Package := "https://wp-mirror.blogvault.net/plugin/akismet.5.1.zip" }

def sampleContactForm : PluginVersion :=
  { Slug := "contact-form-7", NewVersion := "5.7.2",
    URL := "https://wordpress.org/plugins/contact-form-7/",
    Package := "https://wp-mirror.blogvault.net/plugin/contact-form-7.5.7.2.zip" }

/-- The store that holds `sampleCore` and the two plugins of the dummy data. -/
def mixedStore : Redis :=
  { hashes := [(("core_versions", "6.2.1"), marshalCore sampleCore),
               (("plugins:contact-form-7/wp-contact-form-7.php", "5.7.2"),
                 marshalPlugin sampleContactForm),
               (("plugins:akismet/akismet.php", "5.1"), marshalPlugin sampleAkismet)] }

/-- The download items `checkAndQueueDownloads` builds from the two plugins. -/
def sampleAkismetItem : DownloadItem :=
  { Typ := "plugin", Version := "5.1",
    URL := "https://wp-mirror.blogvault.net/plugin/akismet.5.1.zip" }

def sampleContactFormItem : DownloadItem :=
  { Typ := "plugin", Version := "5.7.2",
    URL := "https://wp-mirror.blogvault.net/plugin/contact-form-7.5.7.2.zip" }

/-- The second core version and the themes of the dummy data. -/
def sampleCoreOld : CoreVersion :=
  { Version := "6.1.3", PHPVersion := "5.6.20", MySQLVersion := "5.0", NewBundled := "6.0",
    PartialVersion := false,
    Package := "https://wp-mirror.blogvault.net/release/wordpress-6.1.3.zip",
    Current := "6.1.3", Locale := "en_US" }

def sampleThemeThree : ThemeVersion :=
  { Theme := "twentytwentythree", NewVersion := "1.1",
    URL := "https://wordpress.org/themes/twentytwentythree/",
    Package := "https://wp-mirror.blogvault.net/theme/twentytwentythree.1.1.zip" }

def sampleThemeTwo : ThemeVersion :=
  { Theme := "twentytwentytwo", NewVersion := "1.4",
    URL := "https://wordpress.org/themes/twentytwentytwo/",
    Package := "https://wp-mirror.blogvault.net/theme/twentytwentytwo.1.4.zip" }

/-- The store `populate_redis_dummy_data.go` leaves. -/
def dummyStore : Redis :=
  { hashes := [(("core_versions", "6.2.1"), marshalCore sampleCore),
               (("core_versions", "6.1.3"), marshalCore sampleCoreOld),
               (("plugins:contact-form-7/wp-contact-form-7.php", "5.7.2"),
                 marshalPlugin sampleContactForm),
               (("plugins:akismet/akismet.php", "5.1"), marshalPlugin sampleAkismet),
               (("themes:twentytwentythree", "1.1"), marshalTheme sampleThemeThree),
               (("themes:twentytwentytwo", "1.4"), marshalTheme sampleThemeTwo)] }

/-- A plugin that is installed under either of two plugin files, with one latest record. -/
def sampleHello : PluginVersion :=
  { Slug := "hello-dolly", NewVersion := "1.7.2",
    URL := "https://wordpress.org/plugins/hello-dolly/",
    Package := "https://wp-mirror.blogvault.net/plugin/hello-dolly.1.7.2.zip" }

/-- The store that holds `sampleHello` under the plugin files `hello.php` and
`hello-dolly/hello.php`. -/
def twinStore : Redis :=
  { hashes := [(("plugins:hello.php", "1.7.2"), marshalPlugin sampleHello),
               (("plugins:hello-dolly/hello.php", "1.7.2"), marshalPlugin sampleHello)] }

/-- The download item `checkAndQueueDownloads` builds from `sampleHello`. -/
def sampleHelloItem : DownloadItem :=
  { Typ := "plugin", Version := "1.7.2",
    URL := "https://wp-mirror.blogvault.net/plugin/hello-dolly.1.7.2.zip" }

/-- A record of the plugin contact-form-7 whose version string is the one of `sampleAkismet`. -/
def sampleContactFormOld : PluginVersion :=
  { Slug := "contact-form-7", NewVersion := "5.1",
    URL := "https://wordpress.org/plugins/contact-form-7/",
    Package := "https://wp-mirror.blogvault.net/plugin/contact-form-7.5.1.zip" }

/-- The store that holds two plugins whose latest version string is the same. -/
def sameVersionStore : Redis :=
  { hashes := [(("plugins:contact-form-7/wp-contact-form-7.php", "5.1"),
                 marshalPlugin sampleContactFormOld),
               (("plugins:akismet/akismet.php", "5.1"), marshalPlugin sampleAkismet)] }

/-- The download item `checkAndQueueDownloads` builds from `sampleContactFormOld`. -/
def sampleContactFormOldItem : DownloadItem :=
  { Typ := "plugin", Version := "5.1",
    URL := "https://wp-mirror.blogvault.net/plugin/contact-form-7.5.1.zip" }

/-- A plugin and a theme entry of an upstream manifest that has no `new_version` member:
the version decodes to the empty string. -/
def blankAkismet : PluginVersion :=
  { Slug := "akismet", NewVersion := "", URL := "https://wordpress.org/plugins/akismet/",
    Package := "https://downloads.wordpress.org/plugin/akismet.zip" }

def blankTheme : ThemeVersion :=
  { Theme := "twentytwentytwo", NewVersion := "",
    URL := "https://wordpress.org/themes/twentytwentytwo/",
    Package := "https://downloads.wordpress.org/theme/twentytwentytwo.zip" }

/-- The manifests with these two entries. -/
def blankUpstream : Upstream :=
  { core := none, plugins := some [blankAkismet], themes := some [blankTheme] }

/-- The `gin.H` that `handleCoreUpdateCheck` builds from a core version. -/
def coreUpdate (v : CoreVersion) : Obj :=
  [("version", .str v.Version), ("php_version", .str v.PHPVersion),
    ("mysql_version", .str v.MySQLVersion), ("new_bundled", .str v.NewBundled),
    ("partial_version", .bool v.PartialVersion), ("package", .str v.Package),
    ("current", .str v.Current), ("locale", .str v.Locale)]

/-! # Theorems -/

/-! ## Strings -/

theorem strLess_irrefl (a : String) : ¬ strLess a a := by
  unfold strLess; exact lt_irrefl _

theorem strLess_trans {a b c : String} (h1 : strLess a b) (h2 : strLess b c) : strLess a c := by
  unfold strLess at *; exact lt_trans h1 h2

theorem strLess_asymm {a b : String} (h1 : strLess a b) : ¬ strLess b a := by
  unfold strLess at *; exact lt_asymm h1

theorem strLess_of_not_of_lt {a b c : String} (h1 : ¬ strLess a b) (h2 : strLess a c) :
    ¬ strLess c b := by
  unfold strLess at *
  exact not_lt.mpr (le_trans (not_lt.mp h1) (le_of_lt h2))

theorem strLess_empty {a : String} (h : a ≠ "") : strLess "" a := by
  unfold strLess
  cases a with
  | mk l =>
    cases l with
    | nil => simp at h
    | cons c cs => exact List.Lex.nil

theorem not_strLess_empty (a : String) : ¬ strLess a "" := by
  unfold strLess
  exact fun h => List.Lex.not_nil_right _ _ h

theorem strLess_antisymm {a b : String} (h1 : ¬ strLess a b) (h2 : ¬ strLess b a) : a = b := by
  unfold strLess at *
  have h := le_antisymm (not_lt.mp h2) (not_lt.mp h1)
  cases a; cases b; simp_all

/-! ## `json.Marshal` followed by `json.Unmarshal` -/

theorem unmarshalCore_marshalCore (v into : CoreVersion) :
    unmarshalCore (marshalCore v) into = .ok v := by
  cases v; rfl

theorem unmarshalPlugin_marshalPlugin (v into : PluginVersion) :
    unmarshalPlugin (marshalPlugin v) into = .ok v := by
  cases v; rfl

theorem unmarshalTheme_marshalTheme (v into : ThemeVersion) :
    unmarshalTheme (marshalTheme v) into = .ok v := by
  cases v; rfl

theorem marshalCore_injective {a b : CoreVersion} (h : marshalCore a = marshalCore b) : a = b := by
  have h1 := unmarshalCore_marshalCore a {}
  rw [h, unmarshalCore_marshalCore] at h1
  exact (Except.ok.inj h1).symm

theorem marshalPlugin_injective {a b : PluginVersion} (h : marshalPlugin a = marshalPlugin b) :
    a = b := by
  have h1 := unmarshalPlugin_marshalPlugin a {}
  rw [h, unmarshalPlugin_marshalPlugin] at h1
  exact (Except.ok.inj h1).symm

theorem marshalTheme_injective {a b : ThemeVersion} (h : marshalTheme a = marshalTheme b) :
    a = b := by
  have h1 := unmarshalTheme_marshalTheme a {}
  rw [h, unmarshalTheme_marshalTheme] at h1
  exact (Except.ok.inj h1).symm

/-! ## Association lists and hashes -/

theorem mem_put {κ β : Type} [DecidableEq κ] {k : κ} {v : β} {l : List (κ × β)} {en : κ × β}
    (h : en ∈ put k v l) : en = (k, v) ∨ en ∈ l := by
  induction l with
  | nil => simpa [put] using h
  | cons x xs ih =>
    unfold put at h
    split at h
    · rcases List.mem_cons.mp h with h1 | h1
      · exact Or.inl h1
      · exact Or.inr (List.mem_cons_of_mem _ h1)
    · rcases List.mem_cons.mp h with h1 | h1
      · exact Or.inr (h1 ▸ List.mem_cons_self _ _)
      · rcases ih h1 with h2 | h2
        · exact Or.inl h2
        · exact Or.inr (List.mem_cons_of_mem _ h2)

theorem hashAt_put_same (hs : List ((String × String) × Doc)) (key field : String) (d : Doc) :
    hashAt { hashes := put (key, field) d hs } key = put field d (hashAt { hashes := hs } key) := by
  induction hs with
  | nil => simp [hashAt, put]
  | cons x xs ih =>
    obtain ⟨⟨k, f⟩, v⟩ := x
    simp only [hashAt] at ih ⊢
    by_cases hk : k = key
    · by_cases hf : f = field
      · subst hk; subst hf
        simp [put]
      · subst hk
        have hne : ¬ ((k, f) = (k, field)) := by simp [hf]
        simp [put, hne, hf, ih]
    · have hne : ¬ ((k, f) = (key, field)) := by simp [hk]
      simp [put, hne, hk, ih]

theorem hashAt_put_other (hs : List ((String × String) × Doc)) (key key1 field : String) (d : Doc)
    (hne : key1 ≠ key) :
    hashAt { hashes := put (key, field) d hs } key1 = hashAt { hashes := hs } key1 := by
  induction hs with
  | nil => simp [hashAt, put, hne.symm]
  | cons x xs ih =>
    obtain ⟨⟨k, f⟩, v⟩ := x
    simp only [hashAt] at ih ⊢
    by_cases hkf : (k, f) = (key, field)
    · obtain ⟨hk, hf⟩ := Prod.mk.inj hkf
      subst hk; subst hf
      simp [put, hne.symm]
    · rw [put, if_neg hkf, List.filterMap_cons, List.filterMap_cons, ih]

/-! ## The latest version -/

/-- What the loop of `GetLatestPluginVersion` returns on values written by `json.Marshal`:
the record it started with when no field is above the start, the record of the greatest
field otherwise. -/
theorem latestLoop_marshalled {α : Type} (unmarshal : Doc → α → Except Err α)
    (marshal : α → Doc) (ver : α → String)
    (hround : ∀ v into, unmarshal (marshal v) into = .ok v) :
    ∀ (l : Hash) (latest : α) (num : String), Marshalled marshal ver l →
      ∃ r, latestLoop unmarshal l latest num = .ok r ∧
        ((r = latest ∧ ∀ en ∈ l, ¬ strLess num en.1) ∨
         ((ver r, marshal r) ∈ l ∧ strLess num (ver r) ∧ ∀ en ∈ l, ¬ strLess (ver r) en.1)) := by
  intro l
  induction l with
  | nil =>
    intro latest num _
    exact ⟨latest, rfl, Or.inl ⟨rfl, by simp⟩⟩
  | cons x xs ih =>
    intro latest num hm
    obtain ⟨f, d⟩ := x
    have hxs : Marshalled marshal ver xs := fun en hen => hm en (List.mem_cons_of_mem _ hen)
    obtain ⟨v, hv, hver⟩ := hm (f, d) (List.mem_cons_self _ _)
    simp only at hv hver
    by_cases hlt : strLess num f
    · obtain ⟨r, hr, hcase⟩ := ih v f hxs
      refine ⟨r, ?_, Or.inr ?_⟩
      · simp only [latestLoop, hlt, if_true, hv, hround]
        exact hr
      · rcases hcase with ⟨hrv, hmax⟩ | ⟨hmem, hgt, hmax⟩
        · subst hrv
          refine ⟨?_, ?_, ?_⟩
          · rw [hver, ← hv]; exact List.mem_cons_self _ _
          · rw [hver]; exact hlt
          · intro en hen
            rcases List.mem_cons.mp hen with h1 | h1
            · rw [h1, hver]; exact strLess_irrefl f
            · rw [hver]; exact hmax en h1
        · refine ⟨List.mem_cons_of_mem _ hmem, strLess_trans hlt hgt, ?_⟩
          intro en hen
          rcases List.mem_cons.mp hen with h1 | h1
          · rw [h1]; exact strLess_asymm hgt
          · exact hmax en h1
    · obtain ⟨r, hr, hcase⟩ := ih latest num hxs
      refine ⟨r, ?_, ?_⟩
      · simp only [latestLoop, hlt, if_false]
        exact hr
      · rcases hcase with ⟨hrv, hmax⟩ | ⟨hmem, hgt, hmax⟩
        · refine Or.inl ⟨hrv, ?_⟩
          intro en hen
          rcases List.mem_cons.mp hen with h1 | h1
          · rw [h1]; exact hlt
          · exact hmax en h1
        · refine Or.inr ⟨List.mem_cons_of_mem _ hmem, hgt, ?_⟩
          intro en hen
          rcases List.mem_cons.mp hen with h1 | h1
          · rw [h1]; exact strLess_of_not_of_lt hlt hgt
          · exact hmax en h1

theorem keys_put {κ β : Type} [DecidableEq κ] (k : κ) (v : β) (l : List (κ × β)) :
    (put k v l).map Prod.fst = if k ∈ l.map Prod.fst then l.map Prod.fst else l.map Prod.fst ++ [k] := by
  induction l with
  | nil => simp [put]
  | cons x xs ih =>
    by_cases hx : x.1 = k
    · simp [put, hx]
    · have hx1 : ¬ k = x.1 := fun h => hx h.symm
      rw [put, if_neg hx, List.map_cons, ih]
      by_cases hmem : k ∈ xs.map Prod.fst
      · simp [hmem]
      · simp only [hmem, if_false, List.map_cons, List.mem_cons, hx1, false_or, List.cons_append]

theorem nodup_keys_put {κ β : Type} [DecidableEq κ] (k : κ) (v : β) (l : List (κ × β))
    (h : (l.map Prod.fst).Nodup) : ((put k v l).map Prod.fst).Nodup := by
  rw [keys_put]
  split
  · exact h
  · rename_i hk
    exact List.Nodup.append h (List.nodup_singleton k) (by simpa using hk)

theorem value_unique_of_nodup_keys {κ β : Type} {l : List (κ × β)}
    (h : (l.map Prod.fst).Nodup) {k : κ} {v w : β} (hv : (k, v) ∈ l) (hw : (k, w) ∈ l) : v = w := by
  induction l with
  | nil => cases hv
  | cons x xs ih =>
    rw [List.map_cons, List.nodup_cons] at h
    rcases List.mem_cons.mp hv with h1 | h1 <;> rcases List.mem_cons.mp hw with h2 | h2
    · rw [← h1] at h2; exact (Prod.mk.inj h2).2.symm
    · exfalso; apply h.1; rw [← h1]; exact List.mem_map.mpr ⟨(k, w), h2, rfl⟩
    · exfalso; apply h.1; rw [← h2]; exact List.mem_map.mpr ⟨(k, v), h1, rfl⟩
    · exact ih h.2 h1 h2

/-- A hash as the `HSet` calls of `SetPluginVersions` and `SetThemeVersions` with non-empty
versions leave it: one value per field, each a marshalled record under its version, no
empty field. -/
theorem written_put {α : Type} (marshal : α → Doc) (ver : α → String) (v : α) (h : Hash)
    (hv : ver v ≠ "")
    (hinv : (h.map Prod.fst).Nodup ∧ Marshalled marshal ver h ∧ ∀ en ∈ h, en.1 ≠ "") :
    ((put (ver v) (marshal v) h).map Prod.fst).Nodup ∧
      Marshalled marshal ver (put (ver v) (marshal v) h) ∧
      ∀ en ∈ put (ver v) (marshal v) h, en.1 ≠ "" := by
  refine ⟨nodup_keys_put _ _ _ hinv.1, ?_, ?_⟩
  · intro en hen
    rcases mem_put hen with h1 | h1
    · exact ⟨v, by rw [h1], by rw [h1]⟩
    · exact hinv.2.1 en h1
  · intro en hen
    rcases mem_put hen with h1 | h1
    · rw [h1]; exact hv
    · exact hinv.2.2 en h1

theorem written_nil {α : Type} (marshal : α → Doc) (ver : α → String) :
    (([] : Hash).map Prod.fst).Nodup ∧ Marshalled marshal ver [] ∧
      ∀ en ∈ ([] : Hash), en.1 ≠ "" := by
  refine ⟨List.nodup_nil, ?_, ?_⟩
  · intro en hen; cases hen
  · intro en hen; cases hen

theorem hashAt_HSet_same (e : Env) (key field : String) (d : Doc) (s : Redis) :
    hashAt (HSet e key field d s).2 key = hashAt s key ∨
      hashAt (HSet e key field d s).2 key = put field d (hashAt s key) := by
  unfold HSet
  split
  · exact Or.inl rfl
  · right
    exact hashAt_put_same s.hashes key field d

theorem SetPluginVersions_written (e : Env) (pluginFile : String) :
    ∀ (vs : List PluginVersion) (s : Redis), (∀ v ∈ vs, v.NewVersion ≠ "") →
      ((hashAt s ("plugins:" ++ pluginFile)).map Prod.fst).Nodup ∧
        Marshalled marshalPlugin PluginVersion.NewVersion (hashAt s ("plugins:" ++ pluginFile)) ∧
        (∀ en ∈ hashAt s ("plugins:" ++ pluginFile), en.1 ≠ "") →
      ((hashAt (SetPluginVersions e pluginFile vs s).2 ("plugins:" ++ pluginFile)).map
          Prod.fst).Nodup ∧
        Marshalled marshalPlugin PluginVersion.NewVersion
          (hashAt (SetPluginVersions e pluginFile vs s).2 ("plugins:" ++ pluginFile)) ∧
        (∀ en ∈ hashAt (SetPluginVersions e pluginFile vs s).2 ("plugins:" ++ pluginFile),
          en.1 ≠ "") := by
  intro vs
  induction vs with
  | nil => intro s _ h; exact h
  | cons v vs ih =>
    intro s hne hinv
    have hstep := hashAt_HSet_same e ("plugins:" ++ pluginFile) v.NewVersion (marshalPlugin v) s
    have hinv1 : ((hashAt (HSet e ("plugins:" ++ pluginFile) v.NewVersion (marshalPlugin v) s).2
          ("plugins:" ++ pluginFile)).map Prod.fst).Nodup ∧
        Marshalled marshalPlugin PluginVersion.NewVersion
          (hashAt (HSet e ("plugins:" ++ pluginFile) v.NewVersion (marshalPlugin v) s).2
            ("plugins:" ++ pluginFile)) ∧
        (∀ en ∈ hashAt (HSet e ("plugins:" ++ pluginFile) v.NewVersion (marshalPlugin v) s).2
          ("plugins:" ++ pluginFile), en.1 ≠ "") := by
      rcases hstep with h1 | h1
      · rw [h1]; exact hinv
      · rw [h1]
        exact written_put marshalPlugin PluginVersion.NewVersion v _
          (hne v (List.mem_cons_self _ _)) hinv
    have hne1 : ∀ w ∈ vs, w.NewVersion ≠ "" := fun w hw => hne w (List.mem_cons_of_mem _ hw)
    unfold SetPluginVersions
    cases hres : HSet e ("plugins:" ++ pluginFile) v.NewVersion (marshalPlugin v) s with
    | mk res s1 =>
      rw [hres] at hinv1
      cases res with
      | error x => exact hinv1
      | ok u => exact ih s1 hne1 hinv1

theorem SetThemeVersions_written (e : Env) (themeSlug : String) :
    ∀ (vs : List ThemeVersion) (s : Redis), (∀ v ∈ vs, v.NewVersion ≠ "") →
      ((hashAt s ("themes:" ++ themeSlug)).map Prod.fst).Nodup ∧
        Marshalled marshalTheme ThemeVersion.NewVersion (hashAt s ("themes:" ++ themeSlug)) ∧
        (∀ en ∈ hashAt s ("themes:" ++ themeSlug), en.1 ≠ "") →
      ((hashAt (SetThemeVersions e themeSlug vs s).2 ("themes:" ++ themeSlug)).map
          Prod.fst).Nodup ∧
        Marshalled marshalTheme ThemeVersion.NewVersion
          (hashAt (SetThemeVersions e themeSlug vs s).2 ("themes:" ++ themeSlug)) ∧
        (∀ en ∈ hashAt (SetThemeVersions e themeSlug vs s).2 ("themes:" ++ themeSlug),
          en.1 ≠ "") := by
  intro vs
  induction vs with
  | nil => intro s _ h; exact h
  | cons v vs ih =>
    intro s hne hinv
    have hstep := hashAt_HSet_same e ("themes:" ++ themeSlug) v.NewVersion (marshalTheme v) s
    have hinv1 : ((hashAt (HSet e ("themes:" ++ themeSlug) v.NewVersion (marshalTheme v) s).2
          ("themes:" ++ themeSlug)).map Prod.fst).Nodup ∧
        Marshalled marshalTheme ThemeVersion.NewVersion
          (hashAt (HSet e ("themes:" ++ themeSlug) v.NewVersion (marshalTheme v) s).2
            ("themes:" ++ themeSlug)) ∧
        (∀ en ∈ hashAt (HSet e ("themes:" ++ themeSlug) v.NewVersion (marshalTheme v) s).2
          ("themes:" ++ themeSlug), en.1 ≠ "") := by
      rcases hstep with h1 | h1
      · rw [h1]; exact hinv
      · rw [h1]
        exact written_put marshalTheme ThemeVersion.NewVersion v _
          (hne v (List.mem_cons_self _ _)) hinv
    have hne1 : ∀ w ∈ vs, w.NewVersion ≠ "" := fun w hw => hne w (List.mem_cons_of_mem _ hw)
    unfold SetThemeVersions
    cases hres : HSet e ("themes:" ++ themeSlug) v.NewVersion (marshalTheme v) s with
    | mk res s1 =>
      rw [hres] at hinv1
      cases res with
      | error x => exact hinv1
      | ok u => exact ih s1 hne1 hinv1

theorem afterSetPlugin_written (e : Env) (pluginFile : String) :
    ∀ (batches : List (List PluginVersion)) (s : Redis),
      (∀ b ∈ batches, ∀ v ∈ b, v.NewVersion ≠ "") →
      ((hashAt s ("plugins:" ++ pluginFile)).map Prod.fst).Nodup ∧
        Marshalled marshalPlugin PluginVersion.NewVersion (hashAt s ("plugins:" ++ pluginFile)) ∧
        (∀ en ∈ hashAt s ("plugins:" ++ pluginFile), en.1 ≠ "") →
      ((hashAt (afterSetPlugin e pluginFile batches s) ("plugins:" ++ pluginFile)).map
          Prod.fst).Nodup ∧
        Marshalled marshalPlugin PluginVersion.NewVersion
          (hashAt (afterSetPlugin e pluginFile batches s) ("plugins:" ++ pluginFile)) ∧
        (∀ en ∈ hashAt (afterSetPlugin e pluginFile batches s) ("plugins:" ++ pluginFile),
          en.1 ≠ "") := by
  intro batches
  induction batches with
  | nil => intro s _ h; exact h
  | cons b bs ih =>
    intro s hne hinv
    exact ih _ (fun b1 hb1 => hne b1 (List.mem_cons_of_mem _ hb1))
      (SetPluginVersions_written e pluginFile b s (hne b (List.mem_cons_self _ _)) hinv)

theorem afterSetTheme_written (e : Env) (themeSlug : String) :
    ∀ (batches : List (List ThemeVersion)) (s : Redis),
      (∀ b ∈ batches, ∀ v ∈ b, v.NewVersion ≠ "") →
      ((hashAt s ("themes:" ++ themeSlug)).map Prod.fst).Nodup ∧
        Marshalled marshalTheme ThemeVersion.NewVersion (hashAt s ("themes:" ++ themeSlug)) ∧
        (∀ en ∈ hashAt s ("themes:" ++ themeSlug), en.1 ≠ "") →
      ((hashAt (afterSetTheme e themeSlug batches s) ("themes:" ++ themeSlug)).map
          Prod.fst).Nodup ∧
        Marshalled marshalTheme ThemeVersion.NewVersion
          (hashAt (afterSetTheme e themeSlug batches s) ("themes:" ++ themeSlug)) ∧
        (∀ en ∈ hashAt (afterSetTheme e themeSlug batches s) ("themes:" ++ themeSlug),
          en.1 ≠ "") := by
  intro batches
  induction batches with
  | nil => intro s _ h; exact h
  | cons b bs ih =>
    intro s hne hinv
    exact ih _ (fun b1 hb1 => hne b1 (List.mem_cons_of_mem _ hb1))
      (SetThemeVersions_written e themeSlug b s (hne b (List.mem_cons_self _ _)) hinv)

/-- The record the loop of `GetLatestPluginVersion` and `GetLatestThemeVersion` ends with on
a non-empty hash written with non-empty versions, whatever the order of the visit: the
stored record of the greatest field. -/
theorem latestLoop_written {α : Type} (z : α) (unmarshal : Doc → α → Except Err α)
    (marshal : α → Doc) (ver : α → String)
    (hround : ∀ v into, unmarshal (marshal v) into = .ok v) (h : Hash)
    (hnodup : (h.map Prod.fst).Nodup) (hm : Marshalled marshal ver h)
    (hfields : ∀ en ∈ h, en.1 ≠ "") (hne : h ≠ []) :
    ∃ r, (ver r, marshal r) ∈ h ∧ (∀ en ∈ h, ¬ strLess (ver r) en.1) ∧
      ∀ (visit : Hash) (zero : α), visit.Perm h → latestLoop unmarshal visit zero "" = .ok r := by
  have key : ∀ (visit : Hash) (zero : α), visit.Perm h →
      ∃ r, latestLoop unmarshal visit zero "" = .ok r ∧ (ver r, marshal r) ∈ h ∧
        ∀ en ∈ h, ¬ strLess (ver r) en.1 := by
    intro visit zero hp
    have hmv : Marshalled marshal ver visit := fun en hen => hm en (hp.subset hen)
    obtain ⟨r, hr, hcase⟩ := latestLoop_marshalled unmarshal marshal ver hround visit zero "" hmv
    rcases hcase with ⟨_, hmax⟩ | ⟨hmem, _, hmax⟩
    · exfalso
      obtain ⟨x, hx⟩ := List.exists_mem_of_ne_nil h hne
      exact hmax x (hp.symm.subset hx) (strLess_empty (hfields x hx))
    · exact ⟨r, hr, hp.subset hmem, fun en hen => hmax en (hp.symm.subset hen)⟩
  obtain ⟨r, _, hmem, hmax⟩ := key h z (List.Perm.refl h)
  refine ⟨r, hmem, hmax, ?_⟩
  intro visit zero hp
  obtain ⟨r1, hr1, hmem1, hmax1⟩ := key visit zero hp
  have hv : ver r1 = ver r := strLess_antisymm (hmax1 _ hmem) (hmax _ hmem1)
  rw [hv] at hmem1
  have hd : marshal r1 = marshal r := value_unique_of_nodup_keys hnodup hmem1 hmem
  have hrr : r1 = r := by
    have h1 := hround r1 zero
    rw [hd, hround] at h1
    exact (Except.ok.inj h1).symm
  rw [hr1, hrr]

/-! ## C1: the latest version is the lexicographically greatest one -/

/-- C1. A hash of a plugin file (resp. theme slug) that is non-empty and was written through
`SetPluginVersions` (resp. `SetThemeVersions`) with non-empty version strings holds a record
`r` under the field `r.NewVersion`, no field of the hash is lexicographically above
`r.NewVersion`, and `GetLatestPluginVersion` (resp. `GetLatestThemeVersion`) returns `r`
without error whenever the read of the hash succeeds, in whatever order the map is visited. -/
theorem latest_version_is_lexicographic_max (ew : Env) (s0 : Redis)
    (pluginFile themeSlug : String) (pluginBatches : List (List PluginVersion))
    (themeBatches : List (List ThemeVersion))
    (hp0 : hashAt s0 ("plugins:" ++ pluginFile) = [])
    (ht0 : hashAt s0 ("themes:" ++ themeSlug) = [])
    (hpv : ∀ b ∈ pluginBatches, ∀ v ∈ b, v.NewVersion ≠ "")
    (htv : ∀ b ∈ themeBatches, ∀ v ∈ b, v.NewVersion ≠ "")
    (hpne : hashAt (afterSetPlugin ew pluginFile pluginBatches s0) ("plugins:" ++ pluginFile) ≠ [])
    (htne : hashAt (afterSetTheme ew themeSlug themeBatches s0) ("themes:" ++ themeSlug) ≠ []) :
    (∃ r : PluginVersion,
      (r.NewVersion, marshalPlugin r) ∈
        hashAt (afterSetPlugin ew pluginFile pluginBatches s0) ("plugins:" ++ pluginFile) ∧
      (∀ en ∈ hashAt (afterSetPlugin ew pluginFile pluginBatches s0) ("plugins:" ++ pluginFile),
        ¬ strLess r.NewVersion en.1) ∧
      ∀ e : Env, e.faults (.hgetall ("plugins:" ++ pluginFile)) = false →
        GetLatestPluginVersion e (afterSetPlugin ew pluginFile pluginBatches s0) pluginFile
          = .ok r) ∧
    (∃ r : ThemeVersion,
      (r.NewVersion, marshalTheme r) ∈
        hashAt (afterSetTheme ew themeSlug themeBatches s0) ("themes:" ++ themeSlug) ∧
      (∀ en ∈ hashAt (afterSetTheme ew themeSlug themeBatches s0) ("themes:" ++ themeSlug),
        ¬ strLess r.NewVersion en.1) ∧
      ∀ e : Env, e.faults (.hgetall ("themes:" ++ themeSlug)) = false →
        GetLatestThemeVersion e (afterSetTheme ew themeSlug themeBatches s0) themeSlug
          = .ok r) := by
  constructor
  · obtain ⟨hnodup, hm, hfields⟩ := afterSetPlugin_written ew pluginFile pluginBatches s0 hpv
      (by rw [hp0]; exact written_nil _ _)
    obtain ⟨r, hmem, hmax, hall⟩ := latestLoop_written ({} : PluginVersion) unmarshalPlugin
      marshalPlugin PluginVersion.NewVersion unmarshalPlugin_marshalPlugin _ hnodup hm hfields hpne
    refine ⟨r, hmem, hmax, ?_⟩
    intro e hread
    have hlen : ¬ (hashAt (afterSetPlugin ew pluginFile pluginBatches s0)
        ("plugins:" ++ pluginFile)).length = 0 := fun h0 => hpne (List.length_eq_zero.mp h0)
    simp only [GetLatestPluginVersion, HGetAll, hread, hlen, if_false, Bool.false_eq_true]
    exact hall _ _ (e.order_perm _ _)
  · obtain ⟨hnodup, hm, hfields⟩ := afterSetTheme_written ew themeSlug themeBatches s0 htv
      (by rw [ht0]; exact written_nil _ _)
    obtain ⟨r, hmem, hmax, hall⟩ := latestLoop_written ({} : ThemeVersion) unmarshalTheme
      marshalTheme ThemeVersion.NewVersion unmarshalTheme_marshalTheme _ hnodup hm hfields htne
    refine ⟨r, hmem, hmax, ?_⟩
    intro e hread
    have hlen : ¬ (hashAt (afterSetTheme ew themeSlug themeBatches s0)
        ("themes:" ++ themeSlug)).length = 0 := fun h0 => htne (List.length_eq_zero.mp h0)
    simp only [GetLatestThemeVersion, HGetAll, hread, hlen, if_false, Bool.false_eq_true]
    exact hall _ _ (e.order_perm _ _)

/-- With the versions "1.10" and "1.9" stored for one plugin file and for one theme slug, the
record returned as latest is the one of "1.9", in whatever order the map is visited. -/
theorem latest_version_is_lexicographic_max_witness :
    (∃ r : PluginVersion, r.NewVersion = "1.9" ∧
      ∀ e : Env, e.faults (.hgetall ("plugins:" ++ "akismet/akismet.php")) = false →
        GetLatestPluginVersion e
          (afterSetPlugin Env.calm "akismet/akismet.php"
            [[{ Slug := "akismet", NewVersion := "1.10" }], [{ Slug := "akismet", NewVersion := "1.9" }]]
            {})
          "akismet/akismet.php" = .ok r) ∧
    (∃ r : ThemeVersion, r.NewVersion = "1.9" ∧
      ∀ e : Env, e.faults (.hgetall ("themes:" ++ "twentytwentytwo")) = false →
        GetLatestThemeVersion e
          (afterSetTheme Env.calm "twentytwentytwo"
            [[{ Theme := "twentytwentytwo", NewVersion := "1.9" },
              { Theme := "twentytwentytwo", NewVersion := "1.10" }]]
            {})
          "twentytwentytwo" = .ok r) := by
  obtain ⟨⟨r, _, _, hr⟩, ⟨t, _, _, ht⟩⟩ :=
    latest_version_is_lexicographic_max Env.calm {} "akismet/akismet.php" "twentytwentytwo"
      [[{ Slug := "akismet", NewVersion := "1.10" }], [{ Slug := "akismet", NewVersion := "1.9" }]]
      [[{ Theme := "twentytwentytwo", NewVersion := "1.9" },
        { Theme := "twentytwentytwo", NewVersion := "1.10" }]]
      (by decide) (by decide) (by decide) (by decide) (by decide) (by decide)
  refine ⟨⟨r, ?_, hr⟩, ⟨t, ?_, ht⟩⟩
  · have h1 := hr Env.calm rfl
    have h2 : GetLatestPluginVersion Env.calm
        (afterSetPlugin Env.calm "akismet/akismet.php"
          [[{ Slug := "akismet", NewVersion := "1.10" }], [{ Slug := "akismet", NewVersion := "1.9" }]]
          {})
        "akismet/akismet.php" = .ok { Slug := "akismet", NewVersion := "1.9" } := by decide
    rw [h1] at h2
    rw [Except.ok.inj h2]
  · have h1 := ht Env.calm rfl
    have h2 : GetLatestThemeVersion Env.calm
        (afterSetTheme Env.calm "twentytwentytwo"
          [[{ Theme := "twentytwentytwo", NewVersion := "1.9" },
            { Theme := "twentytwentytwo", NewVersion := "1.10" }]]
          {})
        "twentytwentytwo" = .ok { Theme := "twentytwentytwo", NewVersion := "1.9" } := by decide
    rw [h1] at h2
    rw [Except.ok.inj h2]

/-! ## The queue after `checkAndQueueDownloads` -/

theorem pushItems_eq (e : Env) :
    ∀ (items : List DownloadItem) (nth : Nat) (s : Redis),
      pushItems e nth items s =
        { s with queue := s.queue ++ (pushedItems e nth items).map marshalItem } := by
  intro items
  induction items with
  | nil => intro nth s; simp [pushItems, pushedItems]
  | cons item rest ih =>
    intro nth s
    by_cases hf : e.faults (.rpush downloadQueue nth) = true
    · simp [pushItems, pushedItems, RPush, hf, ih]
    · simp [pushItems, pushedItems, RPush, hf, ih]

theorem pushedItems_subset (e : Env) :
    ∀ (items : List DownloadItem) (nth : Nat) (item : DownloadItem),
      item ∈ pushedItems e nth items → item ∈ items := by
  intro items
  induction items with
  | nil => intro nth item h; simp [pushedItems] at h
  | cons x rest ih =>
    intro nth item h
    unfold pushedItems at h
    split at h
    · exact List.mem_cons_of_mem _ (ih _ _ h)
    · rcases List.mem_cons.mp h with h1 | h1
      · rw [h1]; exact List.mem_cons_self _ _
      · exact List.mem_cons_of_mem _ (ih _ _ h1)

theorem pushedItems_of_no_fault (e : Env) (hpush : ∀ n, e.faults (.rpush downloadQueue n) = false) :
    ∀ (items : List DownloadItem) (nth : Nat), pushedItems e nth items = items := by
  intro items
  induction items with
  | nil => intro nth; rfl
  | cons x rest ih => intro nth; simp [pushedItems, hpush, ih]

theorem fileExists_eq_false {fs : FS} {path : String} :
    fileExists fs path = false ↔ fs path = Stat.notExist := by
  simp [fileExists]

theorem mem_coreItems {fs : FS} {cs : List CoreVersion} {item : DownloadItem} :
    item ∈ coreItems fs cs ↔
      ∃ core ∈ cs, fs (coreFile core.Version) = Stat.notExist ∧
        item = { Typ := "core", Version := core.Version, URL := core.Package } := by
  simp only [coreItems, List.mem_filterMap]
  constructor
  · rintro ⟨core, hmem, h⟩
    by_cases hex : fileExists fs (coreFile core.Version) = true
    · simp [hex] at h
    · simp only [Bool.not_eq_true] at hex
      simp only [hex, Bool.not_false, if_true, Option.some.injEq] at h
      exact ⟨core, hmem, fileExists_eq_false.mp hex, h.symm⟩
  · rintro ⟨core, hmem, habs, h⟩
    refine ⟨core, hmem, ?_⟩
    simp [fileExists_eq_false.mpr habs, h]

theorem mem_pluginItems {e : Env} {fs : FS} {s : Redis} {ps : List String} {item : DownloadItem} :
    item ∈ pluginItems e fs s ps ↔
      ∃ p ∈ ps, ∃ latest, GetLatestPluginVersion e s p = .ok latest ∧
        fs (packageFile p latest.NewVersion) = Stat.notExist ∧
        item = { Typ := "plugin", Version := latest.NewVersion, URL := latest.Package } := by
  simp only [pluginItems, List.mem_filterMap]
  constructor
  · rintro ⟨p, hmem, h⟩
    cases hl : GetLatestPluginVersion e s p with
    | error x => simp [hl] at h
    | ok latest =>
      simp only [hl] at h
      by_cases hex : fileExists fs (packageFile p latest.NewVersion) = true
      · simp [hex] at h
      · simp only [Bool.not_eq_true] at hex
        simp only [hex, Bool.not_false, if_true, Option.some.injEq] at h
        exact ⟨p, hmem, latest, hl, fileExists_eq_false.mp hex, h.symm⟩
  · rintro ⟨p, hmem, latest, hl, habs, h⟩
    refine ⟨p, hmem, ?_⟩
    simp [hl, fileExists_eq_false.mpr habs, h]

theorem mem_themeItems {e : Env} {fs : FS} {s : Redis} {ts : List String} {item : DownloadItem} :
    item ∈ themeItems e fs s ts ↔
      ∃ t ∈ ts, ∃ latest, GetLatestThemeVersion e s t = .ok latest ∧
        fs (packageFile t latest.NewVersion) = Stat.notExist ∧
        item = { Typ := "theme", Version := latest.NewVersion, URL := latest.Package } := by
  simp only [themeItems, List.mem_filterMap]
  constructor
  · rintro ⟨t, hmem, h⟩
    cases hl : GetLatestThemeVersion e s t with
    | error x => simp [hl] at h
    | ok latest =>
      simp only [hl] at h
      by_cases hex : fileExists fs (packageFile t latest.NewVersion) = true
      · simp [hex] at h
      · simp only [Bool.not_eq_true] at hex
        simp only [hex, Bool.not_false, if_true, Option.some.injEq] at h
        exact ⟨t, hmem, latest, hl, fileExists_eq_false.mp hex, h.symm⟩
  · rintro ⟨t, hmem, latest, hl, habs, h⟩
    refine ⟨t, hmem, ?_⟩
    simp [hl, fileExists_eq_false.mpr habs, h]

/-- The run of `checkAndQueueDownloads` whose three reads succeed: the items of the three
loops, those whose `RPUSH` succeeds appended to the queue. -/
theorem checkAndQueueDownloads_ok (e : Env) (fs : FS) (s : Redis) (cs : List CoreVersion)
    (ps ts : List String) (hc : GetCoreVersions e s = .ok cs)
    (hp : ListAllPluginFiles e s = .ok ps) (ht : ListAllThemeSlugs e s = .ok ts) :
    checkAndQueueDownloads e fs s =
      (.ok (), { s with queue := (s.queue ++ List.map marshalItem
        (pushedItems e 0 (coreItems fs cs ++ pluginItems e fs s ps ++ themeItems e fs s ts))) }) := by
  simp only [checkAndQueueDownloads, hc, hp, ht, pushItems_eq]

/-- The run of `checkAndQueueDownloads` in which one of the three reads fails: the error is
returned and Redis is left as it was. -/
theorem checkAndQueueDownloads_error (e : Env) (fs : FS) (s : Redis)
    (h : (∃ x, GetCoreVersions e s = .error x) ∨ (∃ x, ListAllPluginFiles e s = .error x) ∨
      (∃ x, ListAllThemeSlugs e s = .error x)) :
    ∃ x, checkAndQueueDownloads e fs s = (.error x, s) := by
  unfold checkAndQueueDownloads
  cases hc : GetCoreVersions e s with
  | error x => exact ⟨x, rfl⟩
  | ok cs =>
    cases hp : ListAllPluginFiles e s with
    | error x => exact ⟨x, rfl⟩
    | ok ps =>
      cases ht : ListAllThemeSlugs e s with
      | error x => exact ⟨x, rfl⟩
      | ok ts =>
        rcases h with ⟨x, hx⟩ | ⟨x, hx⟩ | ⟨x, hx⟩
        · rw [hc] at hx; cases hx
        · rw [hp] at hx; cases hx
        · rw [ht] at hx; cases hx

/-! ## C2: nothing is enqueued for an artifact that is there -/

/-- C2. For every Redis state, local file state and surroundings, what
`checkAndQueueDownloads` appends to the queue are marshalled download items, and each of them
is a core item of a stored core version `v` whose file `public/wordpress-<v>.zip` does not
exist, or a plugin (theme) item of the latest version `v` of a listed plugin file (theme slug)
`p` whose file `public/<p>.<v>.zip` does not exist. -/
theorem no_enqueue_of_present_artifact (e : Env) (fs : FS) (s : Redis) :
    ∃ pushed : List DownloadItem,
      (checkAndQueueDownloads e fs s).2 = { s with queue := s.queue ++ pushed.map marshalItem } ∧
      ∀ item ∈ pushed,
        (item.Typ = "core" ∧ fs (coreFile item.Version) = Stat.notExist ∧
          ∃ cs core, GetCoreVersions e s = .ok cs ∧ core ∈ cs ∧ item.Version = core.Version ∧
            item.URL = core.Package) ∨
        (item.Typ = "plugin" ∧
          ∃ ps p latest, ListAllPluginFiles e s = .ok ps ∧ p ∈ ps ∧
            GetLatestPluginVersion e s p = .ok latest ∧ item.Version = latest.NewVersion ∧
            item.URL = latest.Package ∧ fs (packageFile p item.Version) = Stat.notExist) ∨
        (item.Typ = "theme" ∧
          ∃ ts t latest, ListAllThemeSlugs e s = .ok ts ∧ t ∈ ts ∧
            GetLatestThemeVersion e s t = .ok latest ∧ item.Version = latest.NewVersion ∧
            item.URL = latest.Package ∧ fs (packageFile t item.Version) = Stat.notExist) := by
  cases hc : GetCoreVersions e s with
  | error x =>
    obtain ⟨y, hy⟩ := checkAndQueueDownloads_error e fs s (Or.inl ⟨x, hc⟩)
    exact ⟨[], by rw [hy]; simp, by simp⟩
  | ok cs =>
    cases hp : ListAllPluginFiles e s with
    | error x =>
      obtain ⟨y, hy⟩ := checkAndQueueDownloads_error e fs s (Or.inr (Or.inl ⟨x, hp⟩))
      exact ⟨[], by rw [hy]; simp, by simp⟩
    | ok ps =>
      cases ht : ListAllThemeSlugs e s with
      | error x =>
        obtain ⟨y, hy⟩ := checkAndQueueDownloads_error e fs s (Or.inr (Or.inr ⟨x, ht⟩))
        exact ⟨[], by rw [hy]; simp, by simp⟩
      | ok ts =>
        refine ⟨_, by rw [checkAndQueueDownloads_ok e fs s cs ps ts hc hp ht], ?_⟩
        intro item hitem
        have hmem := pushedItems_subset e _ _ _ hitem
        rcases List.mem_append.mp hmem with hcp | hth
        · rcases List.mem_append.mp hcp with hcore | hplug
          · obtain ⟨core, hcmem, habs, heq⟩ := mem_coreItems.mp hcore
            subst heq
            exact Or.inl ⟨rfl, habs, cs, core, rfl, hcmem, rfl, rfl⟩
          · obtain ⟨p, hpmem, latest, hl, habs, heq⟩ := mem_pluginItems.mp hplug
            subst heq
            exact Or.inr (Or.inl ⟨rfl, ps, p, latest, rfl, hpmem, hl, rfl, rfl, habs⟩)
        · obtain ⟨t, htmem, latest, hl, habs, heq⟩ := mem_themeItems.mp hth
          subst heq
          exact Or.inr (Or.inr ⟨rfl, ts, t, latest, rfl, htmem, hl, rfl, rfl, habs⟩)

/-! ## C3: the worker writes a core artifact where the checker does not look -/

/-- C3 fails on the code. With the core version 6.2.1 stored and no local file,
`checkAndQueueDownloads` enqueues the core item; `downloadFile` succeeds on it and writes
`public/core/core-6.2.1.zip`; the checker looks at `public/wordpress-6.2.1.zip`, which still
does not exist, and the next run enqueues the same item again. -/
theorem core_download_not_seen_by_checker :
    (checkAndQueueDownloads Env.calm noFiles sampleStore).2.queue = [marshalItem sampleCoreItem] ∧
    (downloadFile Env.calm sampleCoreItem noFiles).1 = .ok () ∧
    downloadTarget sampleCoreItem = "public/core/core-6.2.1.zip" ∧
    (downloadFile Env.calm sampleCoreItem noFiles).2 "public/core/core-6.2.1.zip" = Stat.present ∧
    coreFile sampleCoreItem.Version = "public/wordpress-6.2.1.zip" ∧
    fileExists (downloadFile Env.calm sampleCoreItem noFiles).2 (coreFile sampleCoreItem.Version)
      = false ∧
    (checkAndQueueDownloads Env.calm (downloadFile Env.calm sampleCoreItem noFiles).2
      sampleStore).2.queue = [marshalItem sampleCoreItem] := by
  decide

/-! ## C4: the worker replaces a core record by its version and package -/

/-- C4 fails on the code. `updateRedisInfo` on the item spawned from the stored core record
6.2.1 writes a record that has only the version and the package: afterwards
`GetCoreVersions` no longer returns the stored record, whose `php_version`, `mysql_version`,
`new_bundled`, `current` and `locale` are lost. -/
theorem core_record_overwritten_by_worker :
    GetCoreVersions Env.calm sampleStore = .ok [sampleCore] ∧
    sampleCoreItem =
      { Typ := "core", Version := sampleCore.Version, URL := sampleCore.Package } ∧
    (updateRedisInfo Env.calm (fun _ => "") sampleCoreItem sampleStore).1 = .ok () ∧
    GetCoreVersions Env.calm (updateRedisInfo Env.calm (fun _ => "") sampleCoreItem sampleStore).2
      = .ok [{ Version := "6.2.1",
               Package := "https://wp-mirror.blogvault.net/release/wordpress-6.2.1.zip" }] ∧
    GetCoreVersions Env.calm (updateRedisInfo Env.calm (fun _ => "") sampleCoreItem sampleStore).2
      ≠ GetCoreVersions Env.calm sampleStore := by
  decide

/-! ## What the writers leave alone -/

theorem HSet_frame (e : Env) (key field : String) (d : Doc) (s : Redis) :
    (HSet e key field d s).2.lock = s.lock ∧ (HSet e key field d s).2.queue = s.queue := by
  unfold HSet
  split <;> exact ⟨rfl, rfl⟩

theorem SetCoreVersions_frame (e : Env) :
    ∀ (vs : List CoreVersion) (s : Redis),
      (SetCoreVersions e vs s).2.lock = s.lock ∧ (SetCoreVersions e vs s).2.queue = s.queue := by
  intro vs
  induction vs with
  | nil => intro s; exact ⟨rfl, rfl⟩
  | cons v vs ih =>
    intro s
    have h := HSet_frame e "core_versions" v.Version (marshalCore v) s
    unfold SetCoreVersions
    cases hres : HSet e "core_versions" v.Version (marshalCore v) s with
    | mk res s1 =>
      rw [hres] at h
      cases res with
      | error x => exact h
      | ok u => exact ⟨(ih s1).1.trans h.1, (ih s1).2.trans h.2⟩

theorem SetPluginVersions_frame (e : Env) (pluginFile : String) :
    ∀ (vs : List PluginVersion) (s : Redis),
      (SetPluginVersions e pluginFile vs s).2.lock = s.lock ∧
        (SetPluginVersions e pluginFile vs s).2.queue = s.queue := by
  intro vs
  induction vs with
  | nil => intro s; exact ⟨rfl, rfl⟩
  | cons v vs ih =>
    intro s
    have h := HSet_frame e ("plugins:" ++ pluginFile) v.NewVersion (marshalPlugin v) s
    unfold SetPluginVersions
    cases hres : HSet e ("plugins:" ++ pluginFile) v.NewVersion (marshalPlugin v) s with
    | mk res s1 =>
      rw [hres] at h
      cases res with
      | error x => exact h
      | ok u => exact ⟨(ih s1).1.trans h.1, (ih s1).2.trans h.2⟩

theorem SetThemeVersions_frame (e : Env) (themeSlug : String) :
    ∀ (vs : List ThemeVersion) (s : Redis),
      (SetThemeVersions e themeSlug vs s).2.lock = s.lock ∧
        (SetThemeVersions e themeSlug vs s).2.queue = s.queue := by
  intro vs
  induction vs with
  | nil => intro s; exact ⟨rfl, rfl⟩
  | cons v vs ih =>
    intro s
    have h := HSet_frame e ("themes:" ++ themeSlug) v.NewVersion (marshalTheme v) s
    unfold SetThemeVersions
    cases hres : HSet e ("themes:" ++ themeSlug) v.NewVersion (marshalTheme v) s with
    | mk res s1 =>
      rw [hres] at h
      cases res with
      | error x => exact h
      | ok u => exact ⟨(ih s1).1.trans h.1, (ih s1).2.trans h.2⟩

/-- A loop whose every step leaves the lock and the queue alone leaves them alone. -/
theorem foldl_frame {α : Type} (step : Redis → α → Redis)
    (hstep : ∀ s a, (step s a).lock = s.lock ∧ (step s a).queue = s.queue) :
    ∀ (l : List α) (s : Redis),
      (l.foldl step s).lock = s.lock ∧ (l.foldl step s).queue = s.queue := by
  intro l
  induction l with
  | nil => intro s; exact ⟨rfl, rfl⟩
  | cons a l ih =>
    intro s
    exact ⟨(ih (step s a)).1.trans (hstep s a).1, (ih (step s a)).2.trans (hstep s a).2⟩

theorem updateCoreVersions_frame (e : Env) (up : Upstream) (s : Redis) :
    (updateCoreVersions e up s).lock = s.lock ∧ (updateCoreVersions e up s).queue = s.queue := by
  unfold updateCoreVersions
  cases up.core with
  | none => exact ⟨rfl, rfl⟩
  | some offers =>
    cases GetCoreVersions e s with
    | error x => exact ⟨rfl, rfl⟩
    | ok existing =>
      apply foldl_frame
      intro st nv
      dsimp only
      split
      · exact ⟨rfl, rfl⟩
      · exact SetCoreVersions_frame e _ st

theorem updatePlugin_frame (e : Env) (st : Redis) (plugin : PluginVersion) :
    (updatePlugin e st plugin).lock = st.lock ∧ (updatePlugin e st plugin).queue = st.queue := by
  unfold updatePlugin
  cases GetPluginVersions e st plugin.Slug with
  | error x =>
    dsimp only
    split
    · split
      · exact ⟨rfl, rfl⟩
      · exact SetPluginVersions_frame e _ _ st
    · exact ⟨rfl, rfl⟩
  | ok existing =>
    dsimp only
    split
    · exact ⟨rfl, rfl⟩
    · exact SetPluginVersions_frame e _ _ st

theorem updateTheme_frame (e : Env) (st : Redis) (theme : ThemeVersion) :
    (updateTheme e st theme).lock = st.lock ∧ (updateTheme e st theme).queue = st.queue := by
  unfold updateTheme
  cases GetThemeVersions e st theme.Theme with
  | error x =>
    dsimp only
    split
    · split
      · exact ⟨rfl, rfl⟩
      · exact SetThemeVersions_frame e _ _ st
    · exact ⟨rfl, rfl⟩
  | ok existing =>
    dsimp only
    split
    · exact ⟨rfl, rfl⟩
    · exact SetThemeVersions_frame e _ _ st

theorem updatePlugins_frame (e : Env) (up : Upstream) (s : Redis) :
    (updatePlugins e up s).lock = s.lock ∧ (updatePlugins e up s).queue = s.queue := by
  unfold updatePlugins
  cases up.plugins with
  | none => exact ⟨rfl, rfl⟩
  | some plugins => exact foldl_frame _ (updatePlugin_frame e) plugins s

theorem updateThemes_frame (e : Env) (up : Upstream) (s : Redis) :
    (updateThemes e up s).lock = s.lock ∧ (updateThemes e up s).queue = s.queue := by
  unfold updateThemes
  cases up.themes with
  | none => exact ⟨rfl, rfl⟩
  | some themes => exact foldl_frame _ (updateTheme_frame e) themes s

theorem updateWordPressInfo_frame (e : Env) (up : Upstream) (s : Redis) :
    (updateWordPressInfo e up s).lock = s.lock ∧ (updateWordPressInfo e up s).queue = s.queue := by
  unfold updateWordPressInfo
  have h1 := updateCoreVersions_frame e up s
  have h2 := updatePlugins_frame e up (updateCoreVersions e up s)
  have h3 := updateThemes_frame e up (updatePlugins e up (updateCoreVersions e up s))
  exact ⟨h3.1.trans (h2.1.trans h1.1), h3.2.trans (h2.2.trans h1.2)⟩

/-! ## C5: the lock admits one of two overlapping attempts -/

/-- C5. Two attempts of `runWPUpdater`, the lock key absent at the start. The first gets
`true` from `acquireLock` at the instant `t1`. The second calls `acquireLock` at an instant
`t2` before the lease expires, on a state `s2` that still carries the lock of the first (not
released). Then the first attempt runs `updateWordPressInfo` (which keeps its lock in place)
and releases; the second gets `false`, and its pass leaves Redis, the version store and the
lock included, exactly as it was. -/
theorem second_attempt_is_denied (e1 e2 : Env) (up1 up2 : Upstream) (t1 t2 : Nat)
    (s0 s2 : Redis)
    (habsent : s0.lock = none)
    (hacq : (acquireLock e1 t1 s0).1 = true)
    (hheld : s2.lock = (acquireLock e1 t1 s0).2.lock)
    (hbefore : t2 < t1 + lockDuration) :
    runWPUpdater e1 up1 t1 s0 =
        releaseLock e1 (updateWordPressInfo e1 up1 (acquireLock e1 t1 s0).2) ∧
      (updateWordPressInfo e1 up1 (acquireLock e1 t1 s0).2).lock =
        (acquireLock e1 t1 s0).2.lock ∧
      acquireLock e2 t2 s2 = (false, s2) ∧
      runWPUpdater e2 up2 t2 s2 = s2 := by
  have hlock1 : (acquireLock e1 t1 s0).2.lock = some (t1 + lockDuration) := by
    unfold acquireLock SetNX at hacq ⊢
    by_cases hf : e1.faults (.setnx lockKey) = true
    · simp [hf] at hacq
    · simp [hf, habsent]
  have hden : acquireLock e2 t2 s2 = (false, s2) := by
    rw [hlock1] at hheld
    unfold acquireLock SetNX
    by_cases hf : e2.faults (.setnx lockKey) = true
    · simp [hf]
    · simp [hf, hheld, hbefore]
  refine ⟨?_, (updateWordPressInfo_frame e1 up1 _).1, hden, ?_⟩
  · unfold runWPUpdater
    cases hres : acquireLock e1 t1 s0 with
    | mk ok s1 =>
      rw [hres] at hacq
      simp only at hacq
      subst hacq
      rfl
  · unfold runWPUpdater
    rw [hden]

/-- Two instances, the second an hour after the first, which has not released the lock. -/
theorem second_attempt_is_denied_witness :
    acquireLock Env.calm 3600 (acquireLock Env.calm 0 sampleStore).2
        = (false, (acquireLock Env.calm 0 sampleStore).2) ∧
      runWPUpdater Env.calm Upstream.down 3600 (acquireLock Env.calm 0 sampleStore).2
        = (acquireLock Env.calm 0 sampleStore).2 :=
  (second_attempt_is_denied Env.calm Env.calm Upstream.down Upstream.down 0 3600 sampleStore
    (acquireLock Env.calm 0 sampleStore).2 (by decide) (by decide) rfl (by decide)).2.2

/-! ## C6: the checker does not take the lock -/

/-- C6 fails on the code. While another instance holds the lock (an `acquireLock` at this
instant is denied), a pass of `BackgroundDownloadChecker` still pushes the item of the
missing core artifact. -/
theorem checker_enqueues_while_lock_is_held :
    (acquireLock Env.calm 0 lockedStore).1 = false ∧
      lockedStore.queue = [] ∧
      (BackgroundDownloadChecker Env.calm noFiles lockedStore).queue
        = [marshalItem sampleCoreItem] := by
  decide

/-- C6 as amended. `checkAndQueueDownloads` does not use the lock: for every state, its
result and the queue and hashes it leaves are the same whatever the lock key holds, and it
leaves the lock key as it finds it. -/
theorem checker_ignores_lock (e : Env) (fs : FS) (s : Redis) (l : Option Nat) :
    (checkAndQueueDownloads e fs { s with lock := l }).1 = (checkAndQueueDownloads e fs s).1 ∧
      (checkAndQueueDownloads e fs { s with lock := l }).2 =
        { (checkAndQueueDownloads e fs s).2 with lock := l } ∧
      (checkAndQueueDownloads e fs s).2.lock = s.lock := by
  have hc : GetCoreVersions e { s with lock := l } = GetCoreVersions e s := rfl
  have hp : ListAllPluginFiles e { s with lock := l } = ListAllPluginFiles e s := rfl
  have ht : ListAllThemeSlugs e { s with lock := l } = ListAllThemeSlugs e s := rfl
  cases hcs : GetCoreVersions e s with
  | error x =>
    simp [checkAndQueueDownloads, hc, hcs]
  | ok cs =>
    cases hps : ListAllPluginFiles e s with
    | error x =>
      simp [checkAndQueueDownloads, hc, hcs, hp, hps]
    | ok ps =>
      cases hts : ListAllThemeSlugs e s with
      | error x =>
        simp [checkAndQueueDownloads, hc, hcs, hp, hps, ht, hts]
      | ok ts =>
        have hpi : pluginItems e fs { s with lock := l } ps = pluginItems e fs s ps := rfl
        have hti : themeItems e fs { s with lock := l } ts = themeItems e fs s ts := rfl
        rw [checkAndQueueDownloads_ok e fs s cs ps ts hcs hps hts,
          checkAndQueueDownloads_ok e fs { s with lock := l } cs ps ts (hc.trans hcs)
            (hp.trans hps) (ht.trans hts), hpi, hti]
        exact ⟨rfl, rfl, rfl⟩

/-! ## Repeated writes -/

theorem put_put_same {κ β : Type} [DecidableEq κ] (k : κ) (v w : β) (l : List (κ × β)) :
    put k v (put k w l) = put k v l := by
  induction l with
  | nil => simp [put]
  | cons x xs ih =>
    by_cases hx : x.1 = k
    · simp [put, hx]
    · simp [put, hx, ih]

theorem put_comm {κ β : Type} [DecidableEq κ] (k k1 : κ) (v v1 : β) (hne : k ≠ k1) :
    ∀ l : List (κ × β), k ∈ l.map Prod.fst →
      put k v (put k1 v1 l) = put k1 v1 (put k v l) := by
  intro l
  induction l with
  | nil => intro h; simp at h
  | cons x xs ih =>
    intro hmem
    by_cases hx : x.1 = k
    · have hx1 : ¬ x.1 = k1 := fun h => hne (hx.symm.trans h)
      simp [put, hx, hx1, hne]
    · by_cases hx1 : x.1 = k1
      · simp [put, hx, hx1, hne.symm]
      · have hmem1 : k ∈ xs.map Prod.fst := by
          rw [List.map_cons, List.mem_cons] at hmem
          rcases hmem with h | h
          · exact absurd h.symm hx
          · exact h
        simp [put, hx, hx1, ih hmem1]

theorem get_put_self {κ β : Type} [DecidableEq κ] (k : κ) (v : β) (l : List (κ × β)) :
    get k (put k v l) = some v := by
  induction l with
  | nil => simp [put, get]
  | cons x xs ih =>
    by_cases hx : x.1 = k
    · simp [put, get, hx]
    · simp [put, get, hx, ih]

theorem get_put_ne {κ β : Type} [DecidableEq κ] (k k1 : κ) (v : β) (hne : k1 ≠ k)
    (l : List (κ × β)) : get k1 (put k v l) = get k1 l := by
  induction l with
  | nil => simp [put, get, hne.symm]
  | cons x xs ih =>
    by_cases hx : x.1 = k
    · have hx1 : ¬ x.1 = k1 := fun h => hne (h.symm.trans hx)
      simp [put, get, hx, hx1, hne.symm]
    · by_cases hx1 : x.1 = k1
      · rw [put, if_neg hx, get, if_pos hx1, get, if_pos hx1]
      · rw [put, if_neg hx, get, if_neg hx1, get, if_neg hx1, ih]

theorem put_of_get {κ β : Type} [DecidableEq κ] (k : κ) (v : β) :
    ∀ l : List (κ × β), get k l = some v → put k v l = l := by
  intro l
  induction l with
  | nil => intro h; simp [get] at h
  | cons x xs ih =>
    intro h
    by_cases hx : x.1 = k
    · simp only [get, hx, if_true, Option.some.injEq] at h
      simp only [put, hx, if_true]
      rw [← hx, ← h]
    · simp only [get, hx, if_false] at h
      simp [put, hx, ih h]

theorem mem_keys_put_self {κ β : Type} [DecidableEq κ] (k : κ) (v : β) (l : List (κ × β)) :
    k ∈ (put k v l).map Prod.fst := by
  rw [keys_put]
  split
  · assumption
  · simp

theorem mem_keys_put_of_mem {κ β : Type} [DecidableEq κ] (k k1 : κ) (v : β) (l : List (κ × β))
    (h : k1 ∈ l.map Prod.fst) : k1 ∈ (put k v l).map Prod.fst := by
  rw [keys_put]
  split
  · exact h
  · exact List.mem_append_left _ h

theorem mem_keys_applyWrites {κ β : Type} [DecidableEq κ] (k : κ) :
    ∀ (ws l : List (κ × β)), k ∈ l.map Prod.fst → k ∈ (applyWrites ws l).map Prod.fst := by
  intro ws
  induction ws with
  | nil => intro l h; exact h
  | cons w ws ih =>
    intro l h
    exact ih _ (mem_keys_put_of_mem w.1 k w.2 l h)

theorem get_applyWrites_of_not_written {κ β : Type} [DecidableEq κ] (k : κ) :
    ∀ (ws l : List (κ × β)), k ∉ ws.map Prod.fst → get k (applyWrites ws l) = get k l := by
  intro ws
  induction ws with
  | nil => intro l _; rfl
  | cons w ws ih =>
    intro l h
    rw [List.map_cons, List.mem_cons, not_or] at h
    show get k (applyWrites ws (put w.1 w.2 l)) = get k l
    rw [ih _ h.2, get_put_ne w.1 k w.2 h.1]

/-- A write to a field that is there, followed by a sequence of writes: the sequence undoes
it when it writes the field itself, and commutes with it otherwise. -/
theorem applyWrites_put {κ β : Type} [DecidableEq κ] (k : κ) (v : β) :
    ∀ (ws l : List (κ × β)), k ∈ l.map Prod.fst →
      applyWrites ws (put k v l) =
        if k ∈ ws.map Prod.fst then applyWrites ws l else put k v (applyWrites ws l) := by
  intro ws
  induction ws with
  | nil => intro l _; simp [applyWrites]
  | cons w ws ih =>
    intro l hmem
    show applyWrites ws (put w.1 w.2 (put k v l)) = _
    by_cases hw : w.1 = k
    · rw [hw, put_put_same]
      simp only [List.map_cons, List.mem_cons, hw, true_or, if_true]
      show applyWrites ws (put k w.2 l) = applyWrites ws (put w.1 w.2 l)
      rw [hw]
    · have hkw : k ≠ w.1 := fun h => hw h.symm
      rw [← put_comm k w.1 v w.2 hkw l hmem, ih _ (mem_keys_put_of_mem w.1 k w.2 l hmem)]
      simp only [List.map_cons, List.mem_cons, hkw, false_or]
      rfl

/-- Writing the same sequence a second time changes nothing. -/
theorem applyWrites_idem {κ β : Type} [DecidableEq κ] :
    ∀ (ws l : List (κ × β)), applyWrites ws (applyWrites ws l) = applyWrites ws l := by
  intro ws
  induction ws with
  | nil => intro l; rfl
  | cons w ws ih =>
    intro l
    show applyWrites ws (put w.1 w.2 (applyWrites ws (put w.1 w.2 l))) =
      applyWrites ws (put w.1 w.2 l)
    have hmem : w.1 ∈ (applyWrites ws (put w.1 w.2 l)).map Prod.fst :=
      mem_keys_applyWrites w.1 ws _ (mem_keys_put_self w.1 w.2 l)
    rw [applyWrites_put w.1 w.2 ws _ hmem]
    split
    · exact ih _
    · rename_i hnot
      rw [ih]
      apply put_of_get
      rw [get_applyWrites_of_not_written w.1 ws _ hnot, get_put_self]

/-- The call `SetCoreVersions` is a sequence of writes that depends on the versions and on
the calls that fail, not on the state. -/
theorem SetCoreVersions_writes (e : Env) :
    ∀ vs : List CoreVersion, ∃ (res : Except Err Unit) (ws : List ((String × String) × Doc)),
      ∀ s : Redis, SetCoreVersions e vs s = (res, { s with hashes := applyWrites ws s.hashes }) := by
  intro vs
  induction vs with
  | nil => exact ⟨.ok (), [], fun s => rfl⟩
  | cons v vs ih =>
    obtain ⟨res, ws, h⟩ := ih
    by_cases hf : e.faults (.hset "core_versions" v.Version) = true
    · exact ⟨.error .redis, [], fun s => by simp [SetCoreVersions, HSet, hf, applyWrites]⟩
    · refine ⟨res, (("core_versions", v.Version), marshalCore v) :: ws, fun s => ?_⟩
      simp [SetCoreVersions, HSet, hf, h, applyWrites]

theorem SetPluginVersions_writes (e : Env) (pluginFile : String) :
    ∀ vs : List PluginVersion, ∃ (res : Except Err Unit) (ws : List ((String × String) × Doc)),
      ∀ s : Redis,
        SetPluginVersions e pluginFile vs s = (res, { s with hashes := applyWrites ws s.hashes }) := by
  intro vs
  induction vs with
  | nil => exact ⟨.ok (), [], fun s => rfl⟩
  | cons v vs ih =>
    obtain ⟨res, ws, h⟩ := ih
    by_cases hf : e.faults (.hset ("plugins:" ++ pluginFile) v.NewVersion) = true
    · exact ⟨.error .redis, [], fun s => by simp [SetPluginVersions, HSet, hf, applyWrites]⟩
    · refine ⟨res, (("plugins:" ++ pluginFile, v.NewVersion), marshalPlugin v) :: ws, fun s => ?_⟩
      simp [SetPluginVersions, HSet, hf, h, applyWrites]

theorem SetThemeVersions_writes (e : Env) (themeSlug : String) :
    ∀ vs : List ThemeVersion, ∃ (res : Except Err Unit) (ws : List ((String × String) × Doc)),
      ∀ s : Redis,
        SetThemeVersions e themeSlug vs s = (res, { s with hashes := applyWrites ws s.hashes }) := by
  intro vs
  induction vs with
  | nil => exact ⟨.ok (), [], fun s => rfl⟩
  | cons v vs ih =>
    obtain ⟨res, ws, h⟩ := ih
    by_cases hf : e.faults (.hset ("themes:" ++ themeSlug) v.NewVersion) = true
    · exact ⟨.error .redis, [], fun s => by simp [SetThemeVersions, HSet, hf, applyWrites]⟩
    · refine ⟨res, (("themes:" ++ themeSlug, v.NewVersion), marshalTheme v) :: ws, fun s => ?_⟩
      simp [SetThemeVersions, HSet, hf, h, applyWrites]

/-! ## C8: the upsert is idempotent -/

/-- C8. For every state, every list of records and every pattern of failing calls, calling
`SetCoreVersions` a second time with the same list returns the same result and leaves Redis
exactly as the first call left it, so every later read (`GetCoreVersions` in any visiting
order) sees the same; likewise `SetPluginVersions` and `SetThemeVersions` for a fixed
identifier. -/
theorem set_versions_idempotent (e : Env) (s : Redis) (cores : List CoreVersion)
    (pluginFile : String) (plugins : List PluginVersion) (themeSlug : String)
    (themes : List ThemeVersion) :
    SetCoreVersions e cores (SetCoreVersions e cores s).2 = SetCoreVersions e cores s ∧
      (∀ e1 : Env, GetCoreVersions e1 (SetCoreVersions e cores (SetCoreVersions e cores s).2).2 =
        GetCoreVersions e1 (SetCoreVersions e cores s).2) ∧
      SetPluginVersions e pluginFile plugins (SetPluginVersions e pluginFile plugins s).2 =
        SetPluginVersions e pluginFile plugins s ∧
      SetThemeVersions e themeSlug themes (SetThemeVersions e themeSlug themes s).2 =
        SetThemeVersions e themeSlug themes s := by
  obtain ⟨rc, wc, hc⟩ := SetCoreVersions_writes e cores
  obtain ⟨rp, wp, hp⟩ := SetPluginVersions_writes e pluginFile plugins
  obtain ⟨rt, wt, ht⟩ := SetThemeVersions_writes e themeSlug themes
  have h1 : SetCoreVersions e cores (SetCoreVersions e cores s).2 = SetCoreVersions e cores s := by
    rw [hc s, hc]; simp [applyWrites_idem]
  refine ⟨h1, fun e1 => by rw [h1], ?_, ?_⟩
  · rw [hp s, hp]; simp [applyWrites_idem]
  · rw [ht s, ht]; simp [applyWrites_idem]

/-! ## Keys -/

theorem plugins_key_toList (p : String) :
    ("plugins:" ++ p).toList =
      'p' :: 'l' :: 'u' :: 'g' :: 'i' :: 'n' :: 's' :: ':' :: p.toList := by
  rw [String.toList, String.data_append]; rfl

theorem themes_key_toList (t : String) :
    ("themes:" ++ t).toList = 't' :: 'h' :: 'e' :: 'm' :: 'e' :: 's' :: ':' :: t.toList := by
  rw [String.toList, String.data_append]; rfl

theorem plugins_key_is_plugin (p : String) :
    "plugins:".toList.isPrefixOf ("plugins:" ++ p).toList = true := by
  rw [plugins_key_toList]; simp [List.isPrefixOf]

theorem plugins_key_not_theme (p : String) :
    ¬ "themes:".toList.isPrefixOf ("plugins:" ++ p).toList = true := by
  rw [plugins_key_toList]; simp [List.isPrefixOf]

theorem plugins_key_not_core (p : String) : ¬ "plugins:" ++ p = "core_versions" := by
  intro h
  have h1 := congrArg String.toList h
  rw [plugins_key_toList] at h1
  simp at h1

theorem themes_key_is_theme (t : String) :
    "themes:".toList.isPrefixOf ("themes:" ++ t).toList = true := by
  rw [themes_key_toList]; simp [List.isPrefixOf]

theorem themes_key_not_plugin (t : String) :
    ¬ "plugins:".toList.isPrefixOf ("themes:" ++ t).toList = true := by
  rw [themes_key_toList]; simp [List.isPrefixOf]

theorem themes_key_not_core (t : String) : ¬ "themes:" ++ t = "core_versions" := by
  intro h
  have h1 := congrArg String.toList h
  rw [themes_key_toList] at h1
  simp at h1

theorem core_key_not_plugin : ¬ "plugins:".toList.isPrefixOf "core_versions".toList = true := by
  decide

theorem core_key_not_theme : ¬ "themes:".toList.isPrefixOf "core_versions".toList = true := by
  decide

/-! ## Written stores -/

theorem IsMarshal.exists {α : Type} {unmarshal : Doc → α → Except Err α} {zero : α}
    {marshal : α → Doc} {ver : α → String} {field : String} {d : Doc}
    (h : IsMarshal unmarshal zero marshal ver field d) : ∃ v, d = marshal v ∧ ver v = field := by
  unfold IsMarshal at h
  split at h
  · rename_i v _
    exact ⟨v, h.1.symm, h.2⟩
  · exact h.elim

theorem IsMarshal.of_marshal {α : Type} {unmarshal : Doc → α → Except Err α} (zero : α)
    {marshal : α → Doc} (ver : α → String)
    (hround : ∀ v into, unmarshal (marshal v) into = .ok v) (v : α) :
    IsMarshal unmarshal zero marshal ver (ver v) (marshal v) := by
  unfold IsMarshal
  rw [hround]
  exact ⟨rfl, rfl⟩

theorem mem_hashAt {s : Redis} {key field : String} {d : Doc} :
    (field, d) ∈ hashAt s key ↔ ((key, field), d) ∈ s.hashes := by
  simp only [hashAt, List.mem_filterMap]
  constructor
  · rintro ⟨⟨⟨k, f⟩, v⟩, hmem, h⟩
    by_cases hk : k = key
    · simp only [hk, if_true, Option.some.injEq, Prod.mk.injEq] at h
      rw [← h.1, ← h.2, ← hk]
      exact hmem
    · simp [hk] at h
  · intro h
    exact ⟨((key, field), d), h, by simp⟩

theorem get_hashAt (s : Redis) (key field : String) :
    get field (hashAt s key) = get (key, field) s.hashes := by
  simp only [hashAt]
  induction s.hashes with
  | nil => rfl
  | cons x xs ih =>
    obtain ⟨⟨k, f⟩, v⟩ := x
    by_cases hk : k = key
    · by_cases hf : f = field
      · simp [get, hk, hf]
      · simp [get, hk, hf, ih]
    · simp [get, hk, ih]

theorem get_isSome_iff {κ β : Type} [DecidableEq κ] (k : κ) (l : List (κ × β)) :
    (get k l).isSome = true ↔ k ∈ l.map Prod.fst := by
  induction l with
  | nil => simp [get]
  | cons x xs ih =>
    by_cases hx : x.1 = k
    · simp [get, hx]
    · have hx1 : ¬ k = x.1 := fun h => hx h.symm
      simp [get, hx, hx1, ih]

theorem mem_of_get {κ β : Type} [DecidableEq κ] {k : κ} {v : β} {l : List (κ × β)}
    (h : get k l = some v) : (k, v) ∈ l := by
  induction l with
  | nil => simp [get] at h
  | cons x xs ih =>
    by_cases hx : x.1 = k
    · simp only [get, hx, if_true, Option.some.injEq] at h
      rw [← hx, ← h]
      exact List.mem_cons_self _ _
    · simp only [get, hx, if_false] at h
      exact List.mem_cons_of_mem _ (ih h)

theorem nodup_hashAt (s : Redis) (key : String) (h : (s.hashes.map Prod.fst).Nodup) :
    ((hashAt s key).map Prod.fst).Nodup := by
  have hmap : (hashAt s key).map Prod.fst =
      (s.hashes.map Prod.fst).filterMap fun kf => if kf.1 = key then some kf.2 else none := by
    simp only [hashAt, List.map_filterMap, List.filterMap_map]
    congr 1
    funext en
    by_cases hk : en.1.1 = key <;> simp [hk]
  rw [hmap]
  apply List.Nodup.filterMap _ h
  intro a a1 b hb hb1
  by_cases ha : a.1 = key
  · by_cases ha1 : a1.1 = key
    · simp only [ha, ha1, if_true, Option.mem_def, Option.some.injEq] at hb hb1
      exact Prod.ext (ha.trans ha1.symm) (hb.trans hb1.symm)
    · simp [ha1] at hb1
  · simp [ha] at hb

theorem StoreWritten.core {s : Redis} (h : StoreWritten s) :
    Marshalled marshalCore CoreVersion.Version (hashAt s "core_versions") := by
  intro en hen
  obtain ⟨f, d⟩ := en
  exact ((h.2 _ (mem_hashAt.mp hen)).1 rfl).exists

theorem StoreWritten.plugin {s : Redis} (h : StoreWritten s) (p : String) :
    Marshalled marshalPlugin PluginVersion.NewVersion (hashAt s ("plugins:" ++ p)) := by
  intro en hen
  obtain ⟨f, d⟩ := en
  exact ((h.2 _ (mem_hashAt.mp hen)).2.1 (plugins_key_is_plugin p)).exists

theorem StoreWritten.theme {s : Redis} (h : StoreWritten s) (t : String) :
    Marshalled marshalTheme ThemeVersion.NewVersion (hashAt s ("themes:" ++ t)) := by
  intro en hen
  obtain ⟨f, d⟩ := en
  exact ((h.2 _ (mem_hashAt.mp hen)).2.2 (themes_key_is_theme t)).exists

theorem StoreWritten.put_core {s : Redis} (h : StoreWritten s) (v : CoreVersion) :
    StoreWritten { s with hashes := put ("core_versions", v.Version) (marshalCore v) s.hashes } := by
  refine ⟨nodup_keys_put _ _ _ h.1, ?_⟩
  intro en hen
  rcases mem_put hen with h1 | h1
  · rw [h1]
    refine ⟨fun _ => IsMarshal.of_marshal _ _ unmarshalCore_marshalCore v, ?_, ?_⟩
    · intro hp; exact absurd hp core_key_not_plugin
    · intro ht; exact absurd ht core_key_not_theme
  · exact h.2 en h1

theorem StoreWritten.put_plugin {s : Redis} (h : StoreWritten s) (p : String) (v : PluginVersion) :
    StoreWritten
      { s with hashes := put ("plugins:" ++ p, v.NewVersion) (marshalPlugin v) s.hashes } := by
  refine ⟨nodup_keys_put _ _ _ h.1, ?_⟩
  intro en hen
  rcases mem_put hen with h1 | h1
  · rw [h1]
    refine ⟨?_, fun _ => IsMarshal.of_marshal _ _ unmarshalPlugin_marshalPlugin v, ?_⟩
    · intro hc; exact absurd hc (plugins_key_not_core p)
    · intro ht; exact absurd ht (plugins_key_not_theme p)
  · exact h.2 en h1

theorem StoreWritten.put_theme {s : Redis} (h : StoreWritten s) (t : String) (v : ThemeVersion) :
    StoreWritten
      { s with hashes := put ("themes:" ++ t, v.NewVersion) (marshalTheme v) s.hashes } := by
  refine ⟨nodup_keys_put _ _ _ h.1, ?_⟩
  intro en hen
  rcases mem_put hen with h1 | h1
  · rw [h1]
    refine ⟨?_, ?_, fun _ => IsMarshal.of_marshal _ _ unmarshalTheme_marshalTheme v⟩
    · intro hc; exact absurd hc (themes_key_not_core t)
    · intro hp; exact absurd hp (themes_key_not_plugin t)
  · exact h.2 en h1

theorem StoreWritten.empty : StoreWritten {} := by decide

theorem StoreWritten.of_hashes {s1 s2 : Redis} (h : StoreWritten s1)
    (heq : s2.hashes = s1.hashes) : StoreWritten s2 := by
  unfold StoreWritten at h ⊢
  rw [heq]
  exact h

theorem SetCoreVersions_storeWritten (e : Env) :
    ∀ (vs : List CoreVersion) (s : Redis), StoreWritten s →
      StoreWritten (SetCoreVersions e vs s).2 := by
  intro vs
  induction vs with
  | nil => intro s h; exact h
  | cons v vs ih =>
    intro s h
    by_cases hf : e.faults (.hset "core_versions" v.Version) = true
    · simpa [SetCoreVersions, HSet, hf] using h
    · simp only [SetCoreVersions, HSet, hf, Bool.false_eq_true, if_false]
      exact ih _ (h.put_core v)

theorem SetPluginVersions_storeWritten (e : Env) (pluginFile : String) :
    ∀ (vs : List PluginVersion) (s : Redis), StoreWritten s →
      StoreWritten (SetPluginVersions e pluginFile vs s).2 := by
  intro vs
  induction vs with
  | nil => intro s h; exact h
  | cons v vs ih =>
    intro s h
    by_cases hf : e.faults (.hset ("plugins:" ++ pluginFile) v.NewVersion) = true
    · simpa [SetPluginVersions, HSet, hf] using h
    · simp only [SetPluginVersions, HSet, hf, Bool.false_eq_true, if_false]
      exact ih _ (h.put_plugin pluginFile v)

theorem SetThemeVersions_storeWritten (e : Env) (themeSlug : String) :
    ∀ (vs : List ThemeVersion) (s : Redis), StoreWritten s →
      StoreWritten (SetThemeVersions e themeSlug vs s).2 := by
  intro vs
  induction vs with
  | nil => intro s h; exact h
  | cons v vs ih =>
    intro s h
    by_cases hf : e.faults (.hset ("themes:" ++ themeSlug) v.NewVersion) = true
    · simpa [SetThemeVersions, HSet, hf] using h
    · simp only [SetThemeVersions, HSet, hf, Bool.false_eq_true, if_false]
      exact ih _ (h.put_theme themeSlug v)

/-- The worker keeps the store a written one. -/
theorem updateRedisInfo_storeWritten (e : Env) (slug : DownloadItem → String)
    (item : DownloadItem) (s : Redis) (h : StoreWritten s) :
    StoreWritten (updateRedisInfo e slug item s).2 := by
  unfold updateRedisInfo
  split
  · unfold HSet
    split
    · exact h
    · exact h.put_core { Version := item.Version, Package := item.URL }
  · split
    · unfold HSet
      split
      · exact h
      · exact h.put_plugin (slug item) { NewVersion := item.Version, Package := item.URL }
    · split
      · unfold HSet
        split
        · exact h
        · exact h.put_theme (slug item) { NewVersion := item.Version, Package := item.URL }
      · exact h

/-- Decoding a hash of marshalled records succeeds and gives the records of its fields, in
the order of the visit. -/
theorem decodeEach_marshalled {α : Type} (unmarshal : Doc → α → Except Err α) (zero : α)
    (marshal : α → Doc) (ver : α → String)
    (hround : ∀ v into, unmarshal (marshal v) into = .ok v) :
    ∀ l : Hash, Marshalled marshal ver l →
      ∃ vs, decodeEach (fun d => unmarshal d zero) l = .ok vs ∧ vs.map ver = l.map Prod.fst := by
  intro l
  induction l with
  | nil => intro _; exact ⟨[], rfl, rfl⟩
  | cons x xs ih =>
    intro hm
    obtain ⟨v, hv, hver⟩ := hm x (List.mem_cons_self _ _)
    obtain ⟨vs, hvs, hmap⟩ := ih fun en hen => hm en (List.mem_cons_of_mem _ hen)
    refine ⟨v :: vs, ?_, ?_⟩
    · simp only [decodeEach, hv, hround, hvs]
    · simp only [List.map_cons, hmap, hver]

/-- Reading a hash of marshalled records: the versions found are the fields of the hash. -/
theorem read_versions {α : Type} (unmarshal : Doc → α → Except Err α) (zero : α)
    (marshal : α → Doc) (ver : α → String)
    (hround : ∀ v into, unmarshal (marshal v) into = .ok v) (e : Env) (s : Redis) (key : String)
    (hm : Marshalled marshal ver (hashAt s key)) :
    ∃ vs, decodeEach (fun d => unmarshal d zero) (e.order key (hashAt s key)) = .ok vs ∧
      ∀ f, (vs.any fun ex => decide (f = ver ex)) = true ↔
        (get (key, f) s.hashes).isSome = true := by
  have hperm := e.order_perm key (hashAt s key)
  obtain ⟨vs, hvs, hmap⟩ := decodeEach_marshalled unmarshal zero marshal ver hround
    (e.order key (hashAt s key)) fun en hen => hm en (hperm.subset hen)
  refine ⟨vs, hvs, fun f => ?_⟩
  rw [← get_hashAt, get_isSome_iff]
  have h1 : (vs.any fun ex => decide (f = ver ex)) = true ↔ f ∈ vs.map ver := by
    simp only [List.any_eq_true, decide_eq_true_eq, List.mem_map]
    constructor
    · rintro ⟨x, hx, hfx⟩; exact ⟨x, hx, hfx.symm⟩
    · rintro ⟨x, hx, hfx⟩; exact ⟨x, hx, hfx.symm⟩
  rw [h1, hmap]
  exact (hperm.map Prod.fst).mem_iff

/-- A loop of upserts over a manifest: each step either leaves the state, the field of its
entry being there, or writes the field of its entry, which the store `hs0` of the start did
not hold. Then every value of `hs0` is still in place at the end and every entry of the
manifest has its field. -/
theorem foldl_upsert {α : Type} (hs0 : List ((String × String) × Doc))
    (step : Redis → α → Redis) (wk : α → String × String) (Inv : Redis → Prop)
    (hstep : ∀ st a, Inv st → (∀ kf d, get kf hs0 = some d → get kf st.hashes = some d) →
      Inv (step st a) ∧
        ((step st a = st ∧ (get (wk a) st.hashes).isSome = true) ∨
          (∃ d, (step st a).hashes = put (wk a) d st.hashes ∧ get (wk a) hs0 = none))) :
    ∀ (l : List α) (st : Redis), Inv st →
      (∀ kf d, get kf hs0 = some d → get kf st.hashes = some d) →
      Inv (l.foldl step st) ∧
        (∀ kf d, get kf hs0 = some d → get kf (l.foldl step st).hashes = some d) ∧
        (∀ kf, (get kf st.hashes).isSome = true → (get kf (l.foldl step st).hashes).isSome = true) ∧
        ∀ a ∈ l, (get (wk a) (l.foldl step st).hashes).isSome = true := by
  intro l
  induction l with
  | nil => intro st hinv hkeep; exact ⟨hinv, hkeep, fun _ h => h, fun a ha => by cases ha⟩
  | cons a l ih =>
    intro st hinv hkeep
    obtain ⟨hinv1, hcase⟩ := hstep st a hinv hkeep
    have hkeep1 : ∀ kf d, get kf hs0 = some d → get kf (step st a).hashes = some d := by
      rcases hcase with ⟨heq, _⟩ | ⟨d, hput, hnone⟩
      · rw [heq]; exact hkeep
      · intro kf d1 hget
        have hne : kf ≠ wk a := fun h => by rw [h, hnone] at hget; cases hget
        rw [hput, get_put_ne _ _ _ hne]
        exact hkeep kf d1 hget
    have hmono1 : ∀ kf, (get kf st.hashes).isSome = true →
        (get kf (step st a).hashes).isSome = true := by
      rcases hcase with ⟨heq, _⟩ | ⟨d, hput, _⟩
      · rw [heq]; exact fun _ h => h
      · intro kf h
        rw [hput, get_isSome_iff]
        exact mem_keys_put_of_mem _ _ _ _ ((get_isSome_iff _ _).mp h)
    have hpresent1 : (get (wk a) (step st a).hashes).isSome = true := by
      rcases hcase with ⟨heq, hsome⟩ | ⟨d, hput, _⟩
      · rw [heq]; exact hsome
      · rw [hput, get_put_self]; rfl
    obtain ⟨hinv2, hkeep2, hmono2, hall2⟩ := ih (step st a) hinv1 hkeep1
    refine ⟨hinv2, hkeep2, fun kf h => hmono2 kf (hmono1 kf h), ?_⟩
    intro b hb
    rcases List.mem_cons.mp hb with h1 | h1
    · rw [h1]; exact hmono2 _ hpresent1
    · exact hall2 b h1

theorem get_none_of_not_isSome {β : Type} {o : Option β} (h : ¬ o.isSome = true) : o = none := by
  cases o with
  | none => rfl
  | some x => exact absurd rfl h

theorem updatePlugin_step (e : Env) (hok : ∀ c, e.faults c = false)
    (hs0 : List ((String × String) × Doc)) (st : Redis) (plugin : PluginVersion)
    (hinv : StoreWritten st)
    (hkeep : ∀ kf d, get kf hs0 = some d → get kf st.hashes = some d) :
    StoreWritten (updatePlugin e st plugin) ∧
      ((updatePlugin e st plugin = st ∧
          (get ("plugins:" ++ plugin.Slug, plugin.NewVersion) st.hashes).isSome = true) ∨
        (∃ d, (updatePlugin e st plugin).hashes =
            put ("plugins:" ++ plugin.Slug, plugin.NewVersion) d st.hashes ∧
          get ("plugins:" ++ plugin.Slug, plugin.NewVersion) hs0 = none)) := by
  obtain ⟨vs, hvs, hfound⟩ := read_versions unmarshalPlugin {} marshalPlugin
    PluginVersion.NewVersion unmarshalPlugin_marshalPlugin e st ("plugins:" ++ plugin.Slug)
    (hinv.plugin plugin.Slug)
  have hread : GetPluginVersions e st plugin.Slug = .ok vs := by
    simp only [GetPluginVersions, HGetAll, hok, Bool.false_eq_true, if_false]
    exact hvs
  by_cases hf : (get ("plugins:" ++ plugin.Slug, plugin.NewVersion) st.hashes).isSome = true
  · have hany := (hfound plugin.NewVersion).mpr hf
    have heq : updatePlugin e st plugin = st := by
      simp only [updatePlugin, hread, hany, if_true]
    rw [heq]
    exact ⟨hinv, Or.inl ⟨rfl, hf⟩⟩
  · have hany : ¬ (vs.any fun ex => decide (plugin.NewVersion = ex.NewVersion)) = true :=
      fun h => hf ((hfound plugin.NewVersion).mp h)
    have heq : updatePlugin e st plugin =
        { st with hashes :=
            (put ("plugins:" ++ plugin.Slug, plugin.NewVersion) (marshalPlugin plugin) st.hashes) } := by
      simp only [updatePlugin, hread, hany, if_false, SetPluginVersions, HSet, hok,
        Bool.false_eq_true]
    rw [heq]
    refine ⟨hinv.put_plugin plugin.Slug plugin, Or.inr ⟨marshalPlugin plugin, rfl, ?_⟩⟩
    cases hg : get ("plugins:" ++ plugin.Slug, plugin.NewVersion) hs0 with
    | none => rfl
    | some d => exact absurd (by rw [hkeep _ d hg]; rfl) hf

theorem updateTheme_step (e : Env) (hok : ∀ c, e.faults c = false)
    (hs0 : List ((String × String) × Doc)) (st : Redis) (theme : ThemeVersion)
    (hinv : StoreWritten st)
    (hkeep : ∀ kf d, get kf hs0 = some d → get kf st.hashes = some d) :
    StoreWritten (updateTheme e st theme) ∧
      ((updateTheme e st theme = st ∧
          (get ("themes:" ++ theme.Theme, theme.NewVersion) st.hashes).isSome = true) ∨
        (∃ d, (updateTheme e st theme).hashes =
            put ("themes:" ++ theme.Theme, theme.NewVersion) d st.hashes ∧
          get ("themes:" ++ theme.Theme, theme.NewVersion) hs0 = none)) := by
  obtain ⟨vs, hvs, hfound⟩ := read_versions unmarshalTheme {} marshalTheme
    ThemeVersion.NewVersion unmarshalTheme_marshalTheme e st ("themes:" ++ theme.Theme)
    (hinv.theme theme.Theme)
  have hread : GetThemeVersions e st theme.Theme = .ok vs := by
    simp only [GetThemeVersions, HGetAll, hok, Bool.false_eq_true, if_false]
    exact hvs
  by_cases hf : (get ("themes:" ++ theme.Theme, theme.NewVersion) st.hashes).isSome = true
  · have hany := (hfound theme.NewVersion).mpr hf
    have heq : updateTheme e st theme = st := by
      simp only [updateTheme, hread, hany, if_true]
    rw [heq]
    exact ⟨hinv, Or.inl ⟨rfl, hf⟩⟩
  · have hany : ¬ (vs.any fun ex => decide (theme.NewVersion = ex.NewVersion)) = true :=
      fun h => hf ((hfound theme.NewVersion).mp h)
    have heq : updateTheme e st theme =
        { st with hashes :=
            (put ("themes:" ++ theme.Theme, theme.NewVersion) (marshalTheme theme) st.hashes) } := by
      simp only [updateTheme, hread, hany, if_false, SetThemeVersions, HSet, hok,
        Bool.false_eq_true]
    rw [heq]
    refine ⟨hinv.put_theme theme.Theme theme, Or.inr ⟨marshalTheme theme, rfl, ?_⟩⟩
    cases hg : get ("themes:" ++ theme.Theme, theme.NewVersion) hs0 with
    | none => rfl
    | some d => exact absurd (by rw [hkeep _ d hg]; rfl) hf

/-! ## C9: the updater adds the new versions and keeps the stored records -/

/-- C9. On a version store as the program writes it, with the three manifests fetched and no
store operation failing: after `updateCoreVersions` every offered version is a field of
`core_versions`, after `updatePlugins` (`updateThemes`) every manifest entry has its version
as a field of the hash of its slug, and in each case every value the store held before the
run, under whatever key and field, is still the value held there. -/
theorem update_adds_new_and_keeps_stored (e : Env) (up : Upstream) (s : Redis)
    (offers : List CoreVersion) (plugins : List PluginVersion) (themes : List ThemeVersion)
    (hcore : up.core = some offers) (hplugins : up.plugins = some plugins)
    (hthemes : up.themes = some themes) (hok : ∀ c, e.faults c = false)
    (hwf : StoreWritten s) :
    ((∀ nv ∈ offers,
        (get ("core_versions", nv.Version) (updateCoreVersions e up s).hashes).isSome = true) ∧
      (∀ kf d, get kf s.hashes = some d → get kf (updateCoreVersions e up s).hashes = some d)) ∧
    ((∀ p ∈ plugins,
        (get ("plugins:" ++ p.Slug, p.NewVersion) (updatePlugins e up s).hashes).isSome = true) ∧
      (∀ kf d, get kf s.hashes = some d → get kf (updatePlugins e up s).hashes = some d)) ∧
    ((∀ t ∈ themes,
        (get ("themes:" ++ t.Theme, t.NewVersion) (updateThemes e up s).hashes).isSome = true) ∧
      (∀ kf d, get kf s.hashes = some d → get kf (updateThemes e up s).hashes = some d)) := by
  refine ⟨?_, ?_, ?_⟩
  · obtain ⟨vs, hvs, hfound⟩ := read_versions unmarshalCore {} marshalCore CoreVersion.Version
      unmarshalCore_marshalCore e s "core_versions" hwf.core
    have hread : GetCoreVersions e s = .ok vs := by
      simp only [GetCoreVersions, HGetAll, hok, Bool.false_eq_true, if_false]
      exact hvs
    simp only [updateCoreVersions, hcore, hread]
    obtain ⟨_, hkeep, _, hall⟩ := foldl_upsert s.hashes
      (fun st newVersion =>
        if (vs.any fun existingVersion => decide (newVersion.Version = existingVersion.Version)) = true
        then st else (SetCoreVersions e [newVersion] st).2)
      (fun nv => ("core_versions", nv.Version)) (fun _ => True)
      (by
        intro st nv _ hk
        refine ⟨trivial, ?_⟩
        by_cases hany : (vs.any fun ex => decide (nv.Version = ex.Version)) = true
        · left
          simp only [hany, if_true, true_and]
          obtain ⟨d, hd⟩ := Option.isSome_iff_exists.mp ((hfound nv.Version).mp hany)
          rw [hk _ d hd]; rfl
        · right
          refine ⟨marshalCore nv, ?_, ?_⟩
          · simp only [hany, if_false, SetCoreVersions, HSet, hok, Bool.false_eq_true]
          · exact get_none_of_not_isSome fun h => hany ((hfound nv.Version).mpr h))
      offers s trivial (fun _ _ h => h)
    exact ⟨hall, hkeep⟩
  · simp only [updatePlugins, hplugins]
    obtain ⟨_, hkeep, _, hall⟩ := foldl_upsert s.hashes (updatePlugin e)
      (fun p => ("plugins:" ++ p.Slug, p.NewVersion)) StoreWritten
      (fun st p hinv hk => updatePlugin_step e hok s.hashes st p hinv hk)
      plugins s hwf (fun _ _ h => h)
    exact ⟨hall, hkeep⟩
  · simp only [updateThemes, hthemes]
    obtain ⟨_, hkeep, _, hall⟩ := foldl_upsert s.hashes (updateTheme e)
      (fun t => ("themes:" ++ t.Theme, t.NewVersion)) StoreWritten
      (fun st t hinv hk => updateTheme_step e hok s.hashes st t hinv hk)
      themes s hwf (fun _ _ h => h)
    exact ⟨hall, hkeep⟩

/-- The sample store, the manifests offering 6.1.3 (new) and 6.2.1 (stored), a plugin and a
theme: the new versions are there after the run and the stored record is the one it was. -/
theorem update_adds_new_and_keeps_stored_witness :
    (get ("core_versions", "6.1.3") (updateCoreVersions Env.calm sampleUpstream sampleStore).hashes).isSome
        = true ∧
      get ("core_versions", "6.2.1") (updateCoreVersions Env.calm sampleUpstream sampleStore).hashes
        = some (marshalCore sampleCore) ∧
      (get ("plugins:akismet", "5.1") (updatePlugins Env.calm sampleUpstream sampleStore).hashes).isSome
        = true ∧
      (get ("themes:twentytwentytwo", "1.4")
        (updateThemes Env.calm sampleUpstream sampleStore).hashes).isSome = true := by
  obtain ⟨⟨hc, hck⟩, ⟨hp, _⟩, ⟨ht, _⟩⟩ :=
    update_adds_new_and_keeps_stored Env.calm sampleUpstream sampleStore _ _ _ rfl rfl rfl
      (fun _ => rfl) (by decide)
  refine ⟨hc _ (List.mem_cons_self _ _), hck _ _ (by decide), ?_, ?_⟩
  · exact hp _ (List.mem_cons_self _ _)
  · exact ht _ (List.mem_cons_self _ _)

/-! ## The visiting order of a map -/

theorem decodeEach_cons_ok {α : Type} {dec : Doc → Except Err α} {x : String × Doc} {l : Hash}
    {r : List α} (h : decodeEach dec (x :: l) = .ok r) :
    ∃ v vs, dec x.2 = .ok v ∧ decodeEach dec l = .ok vs ∧ r = v :: vs := by
  unfold decodeEach at h
  cases hv : dec x.2 with
  | error y => rw [hv] at h; cases h
  | ok v =>
    rw [hv] at h
    cases hvs : decodeEach dec l with
    | error y => rw [hvs] at h; cases h
    | ok vs =>
      rw [hvs] at h
      exact ⟨v, vs, rfl, rfl, (Except.ok.inj h).symm⟩

theorem decodeEach_cons_of_ok {α : Type} {dec : Doc → Except Err α} {x : String × Doc} {l : Hash}
    {v : α} {vs : List α} (hv : dec x.2 = .ok v) (hvs : decodeEach dec l = .ok vs) :
    decodeEach dec (x :: l) = .ok (v :: vs) := by
  simp only [decodeEach, hv, hvs]

/-- Decoding every value of a map succeeds or fails whatever the order of the visit, and the
records found are the same up to their order. -/
theorem decodeEach_perm {α : Type} (dec : Doc → Except Err α) {l1 l2 : Hash} (hp : l1.Perm l2) :
    ∀ r1, decodeEach dec l1 = .ok r1 → ∃ r2, decodeEach dec l2 = .ok r2 ∧ r2.Perm r1 := by
  induction hp with
  | nil => intro r1 h; exact ⟨r1, h, List.Perm.refl _⟩
  | cons x _ ih =>
    intro r1 h
    obtain ⟨v, vs, hv, hvs, hr⟩ := decodeEach_cons_ok h
    obtain ⟨r2, hr2, hperm⟩ := ih vs hvs
    exact ⟨v :: r2, decodeEach_cons_of_ok hv hr2, by rw [hr]; exact hperm.cons v⟩
  | swap x y l =>
    intro r1 h
    obtain ⟨vy, vs1, hvy, hvs1, hr⟩ := decodeEach_cons_ok h
    obtain ⟨vx, vs, hvx, hvs, hr1⟩ := decodeEach_cons_ok hvs1
    refine ⟨vx :: vy :: vs, decodeEach_cons_of_ok hvx (decodeEach_cons_of_ok hvy hvs), ?_⟩
    rw [hr, hr1]
    exact List.Perm.swap vy vx vs
  | trans _ _ ih1 ih2 =>
    intro r1 h
    obtain ⟨r2, hr2, hp2⟩ := ih1 r1 h
    obtain ⟨r3, hr3, hp3⟩ := ih2 r2 hr2
    exact ⟨r3, hr3, hp3.trans hp2⟩

/-- On a hash of marshalled records with one value per field, the loop of
`GetLatestPluginVersion` ends with the same record whatever the order of the visit. -/
theorem latestLoop_perm {α : Type} (unmarshal : Doc → α → Except Err α)
    (marshal : α → Doc) (ver : α → String)
    (hround : ∀ v into, unmarshal (marshal v) into = .ok v) (h : Hash)
    (hnodup : (h.map Prod.fst).Nodup) (hm : Marshalled marshal ver h) (zero : α)
    (v1 v2 : Hash) (hp1 : v1.Perm h) (hp2 : v2.Perm h) :
    latestLoop unmarshal v1 zero "" = latestLoop unmarshal v2 zero "" := by
  obtain ⟨r1, hr1, hc1⟩ := latestLoop_marshalled unmarshal marshal ver hround v1 zero ""
    fun en hen => hm en (hp1.subset hen)
  obtain ⟨r2, hr2, hc2⟩ := latestLoop_marshalled unmarshal marshal ver hround v2 zero ""
    fun en hen => hm en (hp2.subset hen)
  rw [hr1, hr2]
  congr 1
  rcases hc1 with ⟨hz1, hmax1⟩ | ⟨hmem1, hgt1, hmax1⟩
  · rcases hc2 with ⟨hz2, _⟩ | ⟨hmem2, hgt2, _⟩
    · rw [hz1, hz2]
    · exact absurd hgt2 (hmax1 _ (hp1.symm.subset (hp2.subset hmem2)))
  · rcases hc2 with ⟨_, hmax2⟩ | ⟨hmem2, _, hmax2⟩
    · exact absurd hgt1 (hmax2 _ (hp2.symm.subset (hp1.subset hmem1)))
    · have hin1 := hp1.subset hmem1
      have hin2 := hp2.subset hmem2
      have hv : ver r1 = ver r2 :=
        strLess_antisymm (hmax1 _ (hp1.symm.subset hin2)) (hmax2 _ (hp2.symm.subset hin1))
      rw [hv] at hin1
      have hd : marshal r1 = marshal r2 := value_unique_of_nodup_keys hnodup hin1 hin2
      have h1 := hround r1 zero
      rw [hd, hround] at h1
      exact (Except.ok.inj h1).symm

theorem hashAt_of_hashes_eq {s1 s2 : Redis} (h : s2.hashes = s1.hashes) (key : String) :
    hashAt s2 key = hashAt s1 key := by
  simp only [hashAt, h]

theorem GetLatestPluginVersion_stable (e1 e2 : Env) (s1 s2 : Redis) (p : String)
    (latest : PluginVersion) (hstore : s2.hashes = s1.hashes)
    (hwf : StoreWritten s1 ∨ e2.order = e1.order)
    (hread : e2.faults (.hgetall ("plugins:" ++ p)) = false)
    (h1 : GetLatestPluginVersion e1 s1 p = .ok latest) :
    GetLatestPluginVersion e2 s2 p = .ok latest := by
  simp only [GetLatestPluginVersion, HGetAll, hread, hashAt_of_hashes_eq hstore,
    Bool.false_eq_true, if_false] at h1 ⊢
  by_cases hf : e1.faults (.hgetall ("plugins:" ++ p)) = true
  · simp [hf] at h1
  · simp only [hf, if_false, Bool.false_eq_true] at h1
    by_cases hlen : (hashAt s1 ("plugins:" ++ p)).length = 0
    · simp [hlen] at h1
    · simp only [hlen, if_false] at h1 ⊢
      rw [← h1]
      rcases hwf with hwf | hord
      · exact latestLoop_perm unmarshalPlugin marshalPlugin PluginVersion.NewVersion
          unmarshalPlugin_marshalPlugin _ (nodup_hashAt s1 _ hwf.1) (hwf.plugin p) _ _ _
          (e2.order_perm _ _) (e1.order_perm _ _)
      · rw [hord]

theorem GetLatestThemeVersion_stable (e1 e2 : Env) (s1 s2 : Redis) (t : String)
    (latest : ThemeVersion) (hstore : s2.hashes = s1.hashes)
    (hwf : StoreWritten s1 ∨ e2.order = e1.order)
    (hread : e2.faults (.hgetall ("themes:" ++ t)) = false)
    (h1 : GetLatestThemeVersion e1 s1 t = .ok latest) :
    GetLatestThemeVersion e2 s2 t = .ok latest := by
  simp only [GetLatestThemeVersion, HGetAll, hread, hashAt_of_hashes_eq hstore,
    Bool.false_eq_true, if_false] at h1 ⊢
  by_cases hf : e1.faults (.hgetall ("themes:" ++ t)) = true
  · simp [hf] at h1
  · simp only [hf, if_false, Bool.false_eq_true] at h1
    by_cases hlen : (hashAt s1 ("themes:" ++ t)).length = 0
    · simp [hlen] at h1
    · simp only [hlen, if_false] at h1 ⊢
      rw [← h1]
      rcases hwf with hwf | hord
      · exact latestLoop_perm unmarshalTheme marshalTheme ThemeVersion.NewVersion
          unmarshalTheme_marshalTheme _ (nodup_hashAt s1 _ hwf.1) (hwf.theme t) _ _ _
          (e2.order_perm _ _) (e1.order_perm _ _)
      · rw [hord]

theorem GetCoreVersions_stable (e1 e2 : Env) (s1 s2 : Redis) (cs1 : List CoreVersion)
    (hstore : s2.hashes = s1.hashes) (hread : e2.faults (.hgetall "core_versions") = false)
    (h1 : GetCoreVersions e1 s1 = .ok cs1) :
    ∃ cs2, GetCoreVersions e2 s2 = .ok cs2 ∧ cs2.Perm cs1 := by
  simp only [GetCoreVersions, HGetAll, hread, hashAt_of_hashes_eq hstore,
    Bool.false_eq_true, if_false] at h1 ⊢
  by_cases hf : e1.faults (.hgetall "core_versions") = true
  · simp [hf] at h1
  · simp only [hf, if_false, Bool.false_eq_true] at h1
    exact decodeEach_perm _ ((e1.order_perm _ _).trans (e2.order_perm _ _).symm) cs1 h1

theorem Keys_stable (e1 e2 : Env) (s1 s2 : Redis) (pre : String) (ks : List String)
    (hstore : s2.hashes = s1.hashes) (hread : e2.faults (.keys (pre ++ "*")) = false)
    (h1 : Keys e1 s1 pre = .ok ks) : Keys e2 s2 pre = .ok ks := by
  simp only [Keys, hread, hstore, Bool.false_eq_true, if_false] at h1 ⊢
  by_cases hf : e1.faults (.keys (pre ++ "*")) = true
  · simp [hf] at h1
  · simp only [hf, if_false, Bool.false_eq_true] at h1
    exact h1

theorem ListAllPluginFiles_stable (e1 e2 : Env) (s1 s2 : Redis) (ps : List String)
    (hstore : s2.hashes = s1.hashes) (hread : e2.faults (.keys ("plugins:" ++ "*")) = false)
    (h1 : ListAllPluginFiles e1 s1 = .ok ps) : ListAllPluginFiles e2 s2 = .ok ps := by
  unfold ListAllPluginFiles at h1 ⊢
  cases hk : Keys e1 s1 "plugins:" with
  | error x => rw [hk] at h1; cases h1
  | ok ks =>
    rw [hk] at h1
    rw [Keys_stable e1 e2 s1 s2 "plugins:" ks hstore hread hk]
    exact h1

theorem ListAllThemeSlugs_stable (e1 e2 : Env) (s1 s2 : Redis) (ts : List String)
    (hstore : s2.hashes = s1.hashes) (hread : e2.faults (.keys ("themes:" ++ "*")) = false)
    (h1 : ListAllThemeSlugs e1 s1 = .ok ts) : ListAllThemeSlugs e2 s2 = .ok ts := by
  unfold ListAllThemeSlugs at h1 ⊢
  cases hk : Keys e1 s1 "themes:" with
  | error x => rw [hk] at h1; cases h1
  | ok ks =>
    rw [hk] at h1
    rw [Keys_stable e1 e2 s1 s2 "themes:" ks hstore hread hk]
    exact h1

theorem pushedBy_ok (e : Env) (fs : FS) (s : Redis) (cs : List CoreVersion)
    (ps ts : List String) (hc : GetCoreVersions e s = .ok cs)
    (hp : ListAllPluginFiles e s = .ok ps) (ht : ListAllThemeSlugs e s = .ok ts) :
    pushedBy e fs s = List.map marshalItem
      (pushedItems e 0 (coreItems fs cs ++ pluginItems e fs s ps ++ themeItems e fs s ts)) := by
  unfold pushedBy
  rw [checkAndQueueDownloads_ok e fs s cs ps ts hc hp ht]
  exact List.drop_left _ _

theorem pushedBy_error (e : Env) (fs : FS) (s : Redis)
    (h : (∃ x, GetCoreVersions e s = .error x) ∨ (∃ x, ListAllPluginFiles e s = .error x) ∨
      (∃ x, ListAllThemeSlugs e s = .error x)) :
    pushedBy e fs s = [] := by
  obtain ⟨x, hx⟩ := checkAndQueueDownloads_error e fs s h
  unfold pushedBy
  rw [hx]
  simp

theorem queue_after_check (e : Env) (fs : FS) (s : Redis) :
    (checkAndQueueDownloads e fs s).2.queue = s.queue ++ pushedBy e fs s := by
  cases hc : GetCoreVersions e s with
  | error x =>
    rw [pushedBy_error e fs s (Or.inl ⟨x, hc⟩)]
    obtain ⟨y, hy⟩ := checkAndQueueDownloads_error e fs s (Or.inl ⟨x, hc⟩)
    rw [hy]; simp
  | ok cs =>
    cases hp : ListAllPluginFiles e s with
    | error x =>
      rw [pushedBy_error e fs s (Or.inr (Or.inl ⟨x, hp⟩))]
      obtain ⟨y, hy⟩ := checkAndQueueDownloads_error e fs s (Or.inr (Or.inl ⟨x, hp⟩))
      rw [hy]; simp
    | ok ps =>
      cases ht : ListAllThemeSlugs e s with
      | error x =>
        rw [pushedBy_error e fs s (Or.inr (Or.inr ⟨x, ht⟩))]
        obtain ⟨y, hy⟩ := checkAndQueueDownloads_error e fs s (Or.inr (Or.inr ⟨x, ht⟩))
        rw [hy]; simp
      | ok ts =>
        rw [pushedBy_ok e fs s cs ps ts hc hp ht, checkAndQueueDownloads_ok e fs s cs ps ts hc hp ht]

/-! ## C7: what is enqueued does not depend on the queue -/

/-- C7. Two runs of `checkAndQueueDownloads` on the same local files and on the same version
store; the queues and the lock of the two states are arbitrary (among them: the queue of the
first run with an item popped and lost), and so are the failures of the first run. The store
is one the program has written, or else the two runs visit the maps in the same order. If no
store operation fails in the second run, every item the first run appended to the queue is
appended by the second run as well. -/
theorem lost_item_is_enqueued_again (e1 e2 : Env) (fs : FS) (s1 s2 : Redis)
    (hstore : s2.hashes = s1.hashes) (hwf : StoreWritten s1 ∨ e2.order = e1.order)
    (hok2 : ∀ c, e2.faults c = false) :
    (checkAndQueueDownloads e1 fs s1).2.queue = s1.queue ++ pushedBy e1 fs s1 ∧
      (checkAndQueueDownloads e2 fs s2).2.queue = s2.queue ++ pushedBy e2 fs s2 ∧
      ∀ d ∈ pushedBy e1 fs s1, d ∈ pushedBy e2 fs s2 := by
  refine ⟨queue_after_check e1 fs s1, queue_after_check e2 fs s2, ?_⟩
  intro d hd
  cases hc : GetCoreVersions e1 s1 with
  | error x => rw [pushedBy_error e1 fs s1 (Or.inl ⟨x, hc⟩)] at hd; cases hd
  | ok cs =>
    cases hp : ListAllPluginFiles e1 s1 with
    | error x => rw [pushedBy_error e1 fs s1 (Or.inr (Or.inl ⟨x, hp⟩))] at hd; cases hd
    | ok ps =>
      cases ht : ListAllThemeSlugs e1 s1 with
      | error x => rw [pushedBy_error e1 fs s1 (Or.inr (Or.inr ⟨x, ht⟩))] at hd; cases hd
      | ok ts =>
        obtain ⟨cs2, hc2, hperm⟩ := GetCoreVersions_stable e1 e2 s1 s2 cs hstore (hok2 _) hc
        have hp2 := ListAllPluginFiles_stable e1 e2 s1 s2 ps hstore (hok2 _) hp
        have ht2 := ListAllThemeSlugs_stable e1 e2 s1 s2 ts hstore (hok2 _) ht
        rw [pushedBy_ok e1 fs s1 cs ps ts hc hp ht] at hd
        rw [pushedBy_ok e2 fs s2 cs2 ps ts hc2 hp2 ht2,
          pushedItems_of_no_fault e2 (fun n => hok2 _)]
        obtain ⟨item, hitem, hdoc⟩ := List.mem_map.mp hd
        refine List.mem_map.mpr ⟨item, ?_, hdoc⟩
        have hmem := pushedItems_subset e1 _ _ _ hitem
        rcases List.mem_append.mp hmem with hcp | hth
        · rcases List.mem_append.mp hcp with hcore | hplug
          · obtain ⟨core, hcmem, habs, heq⟩ := mem_coreItems.mp hcore
            exact List.mem_append_left _ (List.mem_append_left _
              (mem_coreItems.mpr ⟨core, hperm.symm.subset hcmem, habs, heq⟩))
          · obtain ⟨p, hpmem, latest, hl, habs, heq⟩ := mem_pluginItems.mp hplug
            exact List.mem_append_left _ (List.mem_append_right _
              (mem_pluginItems.mpr ⟨p, hpmem, latest,
                GetLatestPluginVersion_stable e1 e2 s1 s2 p latest hstore hwf (hok2 _) hl,
                habs, heq⟩))
        · obtain ⟨t, htmem, latest, hl, habs, heq⟩ := mem_themeItems.mp hth
          exact List.mem_append_right _
            (mem_themeItems.mpr ⟨t, htmem, latest,
              GetLatestThemeVersion_stable e1 e2 s1 s2 t latest hstore hwf (hok2 _) hl,
              habs, heq⟩)

/-- The store of the dummy data without local files: the first run enqueues the akismet
item; with the queue emptied (the item popped and lost) and the maps visited in the reverse
order, the next run enqueues it again. -/
theorem lost_item_is_enqueued_again_witness :
    marshalItem sampleAkismetItem ∈ pushedBy Env.calm noFiles mixedStore ∧
      marshalItem sampleAkismetItem ∈ pushedBy Env.reversed noFiles
        { (checkAndQueueDownloads Env.calm noFiles mixedStore).2 with queue := [] } := by
  have h1 : marshalItem sampleAkismetItem ∈ pushedBy Env.calm noFiles mixedStore := by decide
  exact ⟨h1, (lost_item_is_enqueued_again Env.calm Env.reversed noFiles mixedStore
    { (checkAndQueueDownloads Env.calm noFiles mixedStore).2 with queue := [] }
    (by decide) (Or.inl (by decide)) (fun _ => rfl)).2.2 _ h1⟩

/-! ## C10: which failures end a run of the checker -/

/-- C10 fails on the code. With the two plugins of the dummy data stored and no local file,
a run in which only the read of the core versions fails returns that error and pushes
nothing, although the plugin artifacts are missing: the same run without the failure pushes
their items. -/
theorem core_read_failure_aborts_run :
    GetCoreVersions Env.coreDown mixedStore = .error .redis ∧
      ListAllPluginFiles Env.coreDown mixedStore
        = .ok ["contact-form-7/wp-contact-form-7.php", "akismet/akismet.php"] ∧
      pluginItems Env.coreDown noFiles mixedStore
          ["contact-form-7/wp-contact-form-7.php", "akismet/akismet.php"]
        = [sampleContactFormItem, sampleAkismetItem] ∧
      checkAndQueueDownloads Env.coreDown noFiles mixedStore = (.error .redis, mixedStore) ∧
      pushedBy Env.coreDown noFiles mixedStore = [] ∧
      pushedBy Env.calm noFiles mixedStore
        = [marshalItem sampleCoreItem, marshalItem sampleContactFormItem,
           marshalItem sampleAkismetItem] := by
  decide

/-- C10 as amended. In `checkAndQueueDownloads`, a failure of reading the core versions, of
listing the plugin files or of listing the theme slugs ends the run: the error is returned
and Redis is left as it was. When these three reads succeed and no `RPUSH` fails, the run
returns without error and pushes the item of every core version whose file is missing and of
every plugin file and theme slug whose latest version can be read and whose file is missing,
whichever other plugin files or theme slugs cannot be read. -/
theorem read_failure_aborts_identifier_failure_skips (e : Env) (fs : FS) (s : Redis) :
    (((∃ x, GetCoreVersions e s = .error x) ∨ (∃ x, ListAllPluginFiles e s = .error x) ∨
        (∃ x, ListAllThemeSlugs e s = .error x)) →
      ∃ x, checkAndQueueDownloads e fs s = (.error x, s)) ∧
    ∀ cs ps ts, GetCoreVersions e s = .ok cs → ListAllPluginFiles e s = .ok ps →
      ListAllThemeSlugs e s = .ok ts → (∀ n, e.faults (.rpush downloadQueue n) = false) →
      (checkAndQueueDownloads e fs s).1 = .ok () ∧
      (∀ core ∈ cs, fs (coreFile core.Version) = Stat.notExist →
        marshalItem { Typ := "core", Version := core.Version, URL := core.Package }
          ∈ pushedBy e fs s) ∧
      (∀ p ∈ ps, ∀ latest, GetLatestPluginVersion e s p = .ok latest →
        fs (packageFile p latest.NewVersion) = Stat.notExist →
        marshalItem { Typ := "plugin", Version := latest.NewVersion, URL := latest.Package }
          ∈ pushedBy e fs s) ∧
      (∀ t ∈ ts, ∀ latest, GetLatestThemeVersion e s t = .ok latest →
        fs (packageFile t latest.NewVersion) = Stat.notExist →
        marshalItem { Typ := "theme", Version := latest.NewVersion, URL := latest.Package }
          ∈ pushedBy e fs s) := by
  refine ⟨checkAndQueueDownloads_error e fs s, ?_⟩
  intro cs ps ts hc hp ht hpush
  rw [pushedBy_ok e fs s cs ps ts hc hp ht, pushedItems_of_no_fault e hpush,
    checkAndQueueDownloads_ok e fs s cs ps ts hc hp ht]
  refine ⟨rfl, ?_, ?_, ?_⟩
  · intro core hmem habs
    exact List.mem_map_of_mem _ (List.mem_append_left _ (List.mem_append_left _
      (mem_coreItems.mpr ⟨core, hmem, habs, rfl⟩)))
  · intro p hmem latest hl habs
    exact List.mem_map_of_mem _ (List.mem_append_left _ (List.mem_append_right _
      (mem_pluginItems.mpr ⟨p, hmem, latest, hl, habs, rfl⟩)))
  · intro t hmem latest hl habs
    exact List.mem_map_of_mem _ (List.mem_append_right _
      (mem_themeItems.mpr ⟨t, hmem, latest, hl, habs, rfl⟩))

/-- The store of the dummy data without local files, the read of the akismet hash failing:
the items of the core version and of the other plugin are pushed all the same. -/
theorem read_failure_aborts_identifier_failure_skips_witness :
    GetLatestPluginVersion Env.akismetDown mixedStore "akismet/akismet.php" = .error .redis ∧
      marshalItem sampleCoreItem ∈ pushedBy Env.akismetDown noFiles mixedStore ∧
      marshalItem sampleContactFormItem ∈ pushedBy Env.akismetDown noFiles mixedStore := by
  obtain ⟨_, hcore, hplugin, _⟩ :=
    (read_failure_aborts_identifier_failure_skips Env.akismetDown noFiles mixedStore).2
      [sampleCore] ["contact-form-7/wp-contact-form-7.php", "akismet/akismet.php"] []
      (by decide) (by decide) (by decide) (fun _ => rfl)
  refine ⟨by decide, hcore sampleCore (List.mem_cons_self _ _) rfl, ?_⟩
  exact hplugin "contact-form-7/wp-contact-form-7.php" (List.mem_cons_self _ _)
    sampleContactForm (by decide) rfl

/-! ## C11: the download item carries no identifier -/

/-- The key `updateRedisInfo` writes for a plugin item is made of what is read from the item
alone. -/
theorem updateRedisInfo_plugin (e : Env) (slug : DownloadItem → String) (item : DownloadItem)
    (s : Redis) (htyp : item.Typ = "plugin") :
    updateRedisInfo e slug item s =
      HSet e ("plugins:" ++ slug item) item.Version
        (marshalPlugin { NewVersion := item.Version, Package := item.URL }) s := by
  simp [updateRedisInfo, htyp]

/-- C11 fails on the code. The item `checkAndQueueDownloads` enqueues holds the type, the
version and the URL and no identifier, and `updateRedisInfo` writes the key `plugins:` followed
by what it reads from the item as `item.Slug`. Two plugin files with one latest record give
the same item, so whatever is read from the item, the write is not to the hash of one of
them; with the field left at its zero value, the item of akismet is written to the hash
`plugins:` and the hash of akismet is not written. -/
theorem plugin_item_carries_no_identifier (slug : DownloadItem → String) :
    GetLatestPluginVersion Env.calm twinStore "hello.php" = .ok sampleHello ∧
      GetLatestPluginVersion Env.calm twinStore "hello-dolly/hello.php" = .ok sampleHello ∧
      pushedBy Env.calm noFiles twinStore =
        [marshalItem sampleHelloItem, marshalItem sampleHelloItem] ∧
      (updateRedisInfo Env.calm slug sampleHelloItem twinStore).2.hashes =
        put ("plugins:" ++ slug sampleHelloItem, "1.7.2")
          (marshalPlugin { NewVersion := "1.7.2",
                           Package := "https://wp-mirror.blogvault.net/plugin/hello-dolly.1.7.2.zip" })
          twinStore.hashes ∧
      ("plugins:" ++ slug sampleHelloItem ≠ "plugins:hello.php" ∨
        "plugins:" ++ slug sampleHelloItem ≠ "plugins:hello-dolly/hello.php") ∧
      pushedBy Env.calm noFiles mixedStore =
        [marshalItem sampleCoreItem, marshalItem sampleContactFormItem,
         marshalItem sampleAkismetItem] ∧
      hashAt (updateRedisInfo Env.calm (fun _ => "") sampleAkismetItem mixedStore).2 "plugins:" =
        [("5.1", marshalPlugin
          { NewVersion := "5.1",
            Package := "https://wp-mirror.blogvault.net/plugin/akismet.5.1.zip" })] ∧
      hashAt (updateRedisInfo Env.calm (fun _ => "") sampleAkismetItem mixedStore).2
          "plugins:akismet/akismet.php" =
        hashAt mixedStore "plugins:akismet/akismet.php" := by
  refine ⟨by decide, by decide, by decide, ?_, ?_, by decide, by decide, by decide⟩
  · rw [updateRedisInfo_plugin Env.calm slug sampleHelloItem twinStore rfl]
    rfl
  · by_cases h : "plugins:" ++ slug sampleHelloItem = "plugins:hello.php"
    · right
      rw [h]
      decide
    · exact Or.inl h

/-! ## C12: the worker's path has no identifier in it -/

/-- The path `downloadFile` writes to is made of the type and the version of the item. -/
theorem downloadTarget_of_type_version (a b : DownloadItem) (htyp : a.Typ = b.Typ)
    (hver : a.Version = b.Version) : downloadTarget a = downloadTarget b := by
  simp [downloadTarget, htyp, hver]

/-- C12 fails on the code. The plugins contact-form-7 and akismet, both with the latest
version 5.1, give two different download items; `downloadFile` succeeds on both and writes
both to `public/plugin/plugin-5.1.zip`, the second over the first, while the paths the
checker looks at for the two are different. -/
theorem two_plugins_one_download_path :
    pushedBy Env.calm noFiles sameVersionStore =
        [marshalItem sampleContactFormOldItem, marshalItem sampleAkismetItem] ∧
      sampleContactFormOldItem ≠ sampleAkismetItem ∧
      downloadTarget sampleContactFormOldItem = "public/plugin/plugin-5.1.zip" ∧
      downloadTarget sampleAkismetItem = "public/plugin/plugin-5.1.zip" ∧
      (downloadFile Env.calm sampleContactFormOldItem noFiles).1 = .ok () ∧
      (downloadFile Env.calm sampleContactFormOldItem noFiles).2 "public/plugin/plugin-5.1.zip"
        = Stat.present ∧
      (downloadFile Env.calm sampleAkismetItem
        (downloadFile Env.calm sampleContactFormOldItem noFiles).2).1 = .ok () ∧
      packageFile "contact-form-7/wp-contact-form-7.php" "5.1" ≠
        packageFile "akismet/akismet.php" "5.1" := by
  decide

/-! ## C14: the update check answers with the first record of the map -/

/-- The answer of `handleCoreUpdateCheck` when the read of the core versions succeeds with at
least one record: status 200 and one update, built from the first record read. -/
theorem handleCoreUpdateCheck_first (e : Env) (s : Redis) (first : CoreVersion)
    (rest : List CoreVersion) (h : GetCoreVersions e s = .ok (first :: rest)) :
    handleCoreUpdateCheck e s = { status := 200, body := .updates [coreUpdate first] } := by
  simp [handleCoreUpdateCheck, h, coreUpdate]

/-- C14 fails on the code. On the store of the dummy data, which holds the core versions
6.2.1 and 6.1.3, `handleCoreUpdateCheck` answers 200 with one update, and when the `range` of
`GetCoreVersions` visits 6.1.3 first that update is 6.1.3, not the stored record of the
greatest version string 6.2.1; visiting 6.2.1 first it is 6.2.1. -/
theorem update_check_answers_first_visited :
    GetCoreVersions Env.reversed dummyStore = .ok [sampleCoreOld, sampleCore] ∧
      handleCoreUpdateCheck Env.reversed dummyStore =
        { status := 200, body := .updates [coreUpdate sampleCoreOld] } ∧
      strLess sampleCoreOld.Version sampleCore.Version ∧
      GetCoreVersions Env.calm dummyStore = .ok [sampleCore, sampleCoreOld] ∧
      handleCoreUpdateCheck Env.calm dummyStore =
        { status := 200, body := .updates [coreUpdate sampleCore] } := by
  decide

/-! ## C15: a hash whose only field is the empty version -/

/-- C15 fails on the code. `updatePlugins` (`updateThemes`) stores a manifest entry whose
version is empty under the field `""`. On that hash `GetLatestPluginVersion`
(`GetLatestThemeVersion`) returns without error the record with every field empty, which is
not the decoding of the one stored value. -/
theorem latest_of_empty_version_is_not_stored :
    hashAt (updatePlugins Env.calm blankUpstream {}) "plugins:akismet" =
        [("", marshalPlugin blankAkismet)] ∧
      GetPluginVersions Env.calm (updatePlugins Env.calm blankUpstream {}) "akismet" =
        .ok [blankAkismet] ∧
      GetLatestPluginVersion Env.calm (updatePlugins Env.calm blankUpstream {}) "akismet" =
        .ok { Slug := "", NewVersion := "", URL := "", Package := "" } ∧
      unmarshalPlugin (marshalPlugin blankAkismet) {} ≠
        .ok { Slug := "", NewVersion := "", URL := "", Package := "" } ∧
      hashAt (updateThemes Env.calm blankUpstream {}) "themes:twentytwentytwo" =
        [("", marshalTheme blankTheme)] ∧
      GetThemeVersions Env.calm (updateThemes Env.calm blankUpstream {}) "twentytwentytwo" =
        .ok [blankTheme] ∧
      GetLatestThemeVersion Env.calm (updateThemes Env.calm blankUpstream {}) "twentytwentytwo" =
        .ok { Theme := "", NewVersion := "", URL := "", Package := "" } ∧
      unmarshalTheme (marshalTheme blankTheme) {} ≠
        .ok { Theme := "", NewVersion := "", URL := "", Package := "" } := by
  decide

/-! ## The answers of the bulk handlers -/

/-- A loop of assignments `response[key] = value` in which the key `k` occurs and every
element under `k` assigns the value `o` ends with `o` under `k`. -/
theorem get_foldl_assign {α : Type} (keyOf : α → String)
    (step : List (String × Obj) → α → List (String × Obj)) (k : String) (o : Obj) :
    ∀ (l : List α) (r : List (String × Obj)),
      (∀ a ∈ l, ∀ r1, (keyOf a = k ∧ step r1 a = put k o r1) ∨
        (keyOf a ≠ k ∧ (step r1 a = r1 ∨ ∃ o1, step r1 a = put (keyOf a) o1 r1))) →
      (k ∈ l.map keyOf ∨ get k r = some o) → get k (l.foldl step r) = some o := by
  intro l
  induction l with
  | nil =>
    intro r _ h
    rcases h with h | h
    · simp at h
    · exact h
  | cons a l ih =>
    intro r hstep h
    rw [List.foldl_cons]
    apply ih _ (fun b hb => hstep b (List.mem_cons_of_mem _ hb))
    rcases hstep a (List.mem_cons_self _ _) r with ⟨hk, hs⟩ | ⟨hk, hs⟩
    · right
      rw [hs, get_put_self]
    · rcases h with h | h
      · left
        rw [List.map_cons, List.mem_cons] at h
        rcases h with h | h
        · exact absurd h.symm hk
        · exact h
      · right
        rcases hs with hs | ⟨o1, hs⟩
        · rw [hs]; exact h
        · rw [hs, get_put_ne _ _ _ (fun hkk => hk hkk.symm)]; exact h

/-- On a written store whose read succeeds, `GetLatestPluginVersion` fails exactly on the
plugin files without a stored version. -/
theorem GetLatestPluginVersion_written (e : Env) (s : Redis) (p : String)
    (hread : e.faults (.hgetall ("plugins:" ++ p)) = false) (hwf : StoreWritten s) :
    (hashAt s ("plugins:" ++ p) = [] → GetLatestPluginVersion e s p = .error .noVersions) ∧
      (hashAt s ("plugins:" ++ p) ≠ [] → ∃ latest, GetLatestPluginVersion e s p = .ok latest) := by
  constructor
  · intro h
    simp [GetLatestPluginVersion, HGetAll, hread, h]
  · intro h
    have hlen : ¬ (hashAt s ("plugins:" ++ p)).length = 0 := fun h0 => h (List.length_eq_zero.mp h0)
    obtain ⟨r, hr, _⟩ := latestLoop_marshalled unmarshalPlugin marshalPlugin
      PluginVersion.NewVersion unmarshalPlugin_marshalPlugin
      (e.order ("plugins:" ++ p) (hashAt s ("plugins:" ++ p))) {} ""
      (fun en hen => hwf.plugin p en ((e.order_perm _ _).subset hen))
    refine ⟨r, ?_⟩
    simp only [GetLatestPluginVersion, HGetAll, hread, hlen, if_false, Bool.false_eq_true]
    exact hr

theorem GetLatestThemeVersion_written (e : Env) (s : Redis) (t : String)
    (hread : e.faults (.hgetall ("themes:" ++ t)) = false) (hwf : StoreWritten s) :
    (hashAt s ("themes:" ++ t) = [] → GetLatestThemeVersion e s t = .error .noVersions) ∧
      (hashAt s ("themes:" ++ t) ≠ [] → ∃ latest, GetLatestThemeVersion e s t = .ok latest) := by
  constructor
  · intro h
    simp [GetLatestThemeVersion, HGetAll, hread, h]
  · intro h
    have hlen : ¬ (hashAt s ("themes:" ++ t)).length = 0 := fun h0 => h (List.length_eq_zero.mp h0)
    obtain ⟨r, hr, _⟩ := latestLoop_marshalled unmarshalTheme marshalTheme
      ThemeVersion.NewVersion unmarshalTheme_marshalTheme
      (e.order ("themes:" ++ t) (hashAt s ("themes:" ++ t))) {} ""
      (fun en hen => hwf.theme t en ((e.order_perm _ _).subset hen))
    refine ⟨r, ?_⟩
    simp only [GetLatestThemeVersion, HGetAll, hread, hlen, if_false, Bool.false_eq_true]
    exact hr

/-- The entry `handlePluginInfoBulk` answers with for a requested plugin file whose latest
version is read: the slug of the request and the version, URL and package read. -/
theorem pluginInfo_entry (e : Env) (s : Redis) (entries : List (String × String))
    (hmap : (entries.map Prod.fst).Nodup) (p slug : String) (hmem : (p, slug) ∈ entries)
    (latest : PluginVersion) (hl : GetLatestPluginVersion e s p = .ok latest) :
    get p (entries.foldl (pluginInfoStep e s) []) =
      some [("slug", .str slug), ("new_version", .str latest.NewVersion),
        ("url", .str latest.URL), ("package", .str latest.Package)] := by
  apply get_foldl_assign Prod.fst (pluginInfoStep e s) p _ entries [] _
    (Or.inl (List.mem_map.mpr ⟨(p, slug), hmem, rfl⟩))
  intro a ha r
  by_cases hk : a.1 = p
  · left
    refine ⟨hk, ?_⟩
    obtain ⟨k, sl⟩ := a
    simp only at hk
    subst hk
    have hsl : sl = slug := value_unique_of_nodup_keys hmap ha hmem
    subst hsl
    simp only [pluginInfoStep, hl]
  · right
    refine ⟨hk, ?_⟩
    unfold pluginInfoStep
    cases GetLatestPluginVersion e s a.1 with
    | error x => exact Or.inl rfl
    | ok v => exact Or.inr ⟨_, rfl⟩

/-- No entry is answered for a plugin file that is not requested or whose latest version
cannot be read. -/
theorem pluginInfo_skipped (e : Env) (s : Redis) (entries : List (String × String)) (p : String)
    (h : p ∉ entries.map Prod.fst ∨ ∃ x, GetLatestPluginVersion e s p = .error x) :
    get p (entries.foldl (pluginInfoStep e s) []) = none := by
  have hgen : ∀ (l : List (String × String)) (r : List (String × Obj)),
      (p ∉ l.map Prod.fst ∨ ∃ x, GetLatestPluginVersion e s p = .error x) →
      get p (l.foldl (pluginInfoStep e s) r) = get p r := by
    intro l
    induction l with
    | nil => intro r _; rfl
    | cons a l ih =>
      intro r hcase
      have hcase1 : p ∉ l.map Prod.fst ∨ ∃ x, GetLatestPluginVersion e s p = .error x := by
        rcases hcase with hc | hc
        · left
          intro hm
          exact hc (by rw [List.map_cons]; exact List.mem_cons_of_mem _ hm)
        · exact Or.inr hc
      rw [List.foldl_cons, ih _ hcase1]
      by_cases hk : a.1 = p
      · rcases hcase with hc | ⟨x, hx⟩
        · exact absurd (by rw [List.map_cons, hk]; exact List.mem_cons_self _ _) hc
        · simp only [pluginInfoStep, hk, hx]
      · unfold pluginInfoStep
        cases GetLatestPluginVersion e s a.1 with
        | error x => rfl
        | ok v => exact get_put_ne _ _ _ (fun hkk => hk hkk.symm) r
  rw [hgen entries [] h]
  rfl

theorem themeInfo_entry (e : Env) (s : Redis) (slugs : List String) (t : String)
    (hmem : t ∈ slugs) (latest : ThemeVersion) (hl : GetLatestThemeVersion e s t = .ok latest) :
    get t (slugs.foldl (themeInfoStep e s) []) =
      some [("theme", .str t), ("new_version", .str latest.NewVersion),
        ("url", .str latest.URL), ("package", .str latest.Package)] := by
  apply get_foldl_assign id (themeInfoStep e s) t _ slugs [] _
    (Or.inl (by rw [List.map_id]; exact hmem))
  intro a _ r
  by_cases hk : a = t
  · left
    refine ⟨hk, ?_⟩
    subst hk
    simp only [themeInfoStep, hl]
  · right
    refine ⟨hk, ?_⟩
    unfold themeInfoStep
    cases GetLatestThemeVersion e s a with
    | error x => exact Or.inl rfl
    | ok v => exact Or.inr ⟨_, rfl⟩

theorem themeInfo_skipped (e : Env) (s : Redis) (slugs : List String) (t : String)
    (h : t ∉ slugs ∨ ∃ x, GetLatestThemeVersion e s t = .error x) :
    get t (slugs.foldl (themeInfoStep e s) []) = none := by
  have hgen : ∀ (l : List String) (r : List (String × Obj)),
      (t ∉ l ∨ ∃ x, GetLatestThemeVersion e s t = .error x) →
      get t (l.foldl (themeInfoStep e s) r) = get t r := by
    intro l
    induction l with
    | nil => intro r _; rfl
    | cons a l ih =>
      intro r hcase
      have hcase1 : t ∉ l ∨ ∃ x, GetLatestThemeVersion e s t = .error x := by
        rcases hcase with hc | hc
        · exact Or.inl fun hm => hc (List.mem_cons_of_mem _ hm)
        · exact Or.inr hc
      rw [List.foldl_cons, ih _ hcase1]
      by_cases hk : a = t
      · rcases hcase with hc | ⟨x, hx⟩
        · exact absurd (by rw [hk]; exact List.mem_cons_self _ _) hc
        · simp only [themeInfoStep, hk, hx]
      · unfold themeInfoStep
        cases GetLatestThemeVersion e s a with
        | error x => rfl
        | ok v => exact get_put_ne _ _ _ (fun hkk => hk hkk.symm) r
  rw [hgen slugs [] h]
  rfl

/-! ## C13: the bulk information handlers -/

/-- C13. On a version store as the program writes it, with the reads of the hashes not
failing: for every request map from plugin file to slug, `handlePluginInfoBulk` answers 200
with a map that has an entry for exactly the requested plugin files with at least one stored
version, and the entry of such a plugin file holds, under the keys `slug`, `new_version`,
`url` and `package`, the slug of the request and the version, URL and package that
`GetLatestPluginVersion` returns for it. The same for `handleThemeInfoBulk`, a list of theme
slugs and the keys `theme`, `new_version`, `url` and `package`. -/
theorem bulk_info_answers (e : Env) (s : Redis) (plugins : List (String × String))
    (themes : List String) (hread : ∀ key, e.faults (.hgetall key) = false)
    (hwf : StoreWritten s) (hmap : (plugins.map Prod.fst).Nodup) :
    (∃ response,
      handlePluginInfoBulk e s (some plugins) = { status := 200, body := .entries response } ∧
      ∀ p,
        ((get p response).isSome = true ↔
          p ∈ plugins.map Prod.fst ∧ hashAt s ("plugins:" ++ p) ≠ []) ∧
        ∀ slug, (p, slug) ∈ plugins → hashAt s ("plugins:" ++ p) ≠ [] →
          ∃ latest, GetLatestPluginVersion e s p = .ok latest ∧
            get p response =
              some [("slug", .str slug), ("new_version", .str latest.NewVersion),
                ("url", .str latest.URL), ("package", .str latest.Package)]) ∧
    (∃ response,
      handleThemeInfoBulk e s (some themes) = { status := 200, body := .entries response } ∧
      ∀ t,
        ((get t response).isSome = true ↔ t ∈ themes ∧ hashAt s ("themes:" ++ t) ≠ []) ∧
        (t ∈ themes → hashAt s ("themes:" ++ t) ≠ [] →
          ∃ latest, GetLatestThemeVersion e s t = .ok latest ∧
            get t response =
              some [("theme", .str t), ("new_version", .str latest.NewVersion),
                ("url", .str latest.URL), ("package", .str latest.Package)])) := by
  constructor
  · refine ⟨plugins.foldl (pluginInfoStep e s) [], rfl, fun p => ⟨?_, ?_⟩⟩
    · obtain ⟨hnone, hsome⟩ := GetLatestPluginVersion_written e s p (hread _) hwf
      constructor
      · intro hget
        by_cases hmem : p ∈ plugins.map Prod.fst
        · refine ⟨hmem, fun hempty => ?_⟩
          rw [pluginInfo_skipped e s plugins p (Or.inr ⟨_, hnone hempty⟩)] at hget
          cases hget
        · rw [pluginInfo_skipped e s plugins p (Or.inl hmem)] at hget
          cases hget
      · rintro ⟨hmem, hne⟩
        obtain ⟨⟨p1, slug⟩, hin, hp⟩ := List.mem_map.mp hmem
        simp only at hp
        subst hp
        obtain ⟨latest, hl⟩ := hsome hne
        rw [pluginInfo_entry e s plugins hmap p1 slug hin latest hl]
        rfl
    · intro slug hin hne
      obtain ⟨latest, hl⟩ := (GetLatestPluginVersion_written e s p (hread _) hwf).2 hne
      exact ⟨latest, hl, pluginInfo_entry e s plugins hmap p slug hin latest hl⟩
  · refine ⟨themes.foldl (themeInfoStep e s) [], rfl, fun t => ⟨?_, ?_⟩⟩
    · obtain ⟨hnone, hsome⟩ := GetLatestThemeVersion_written e s t (hread _) hwf
      constructor
      · intro hget
        by_cases hmem : t ∈ themes
        · refine ⟨hmem, fun hempty => ?_⟩
          rw [themeInfo_skipped e s themes t (Or.inr ⟨_, hnone hempty⟩)] at hget
          cases hget
        · rw [themeInfo_skipped e s themes t (Or.inl hmem)] at hget
          cases hget
      · rintro ⟨hmem, hne⟩
        obtain ⟨latest, hl⟩ := hsome hne
        rw [themeInfo_entry e s themes t hmem latest hl]
        rfl
    · intro hmem hne
      obtain ⟨latest, hl⟩ := (GetLatestThemeVersion_written e s t (hread _) hwf).2 hne
      exact ⟨latest, hl, themeInfo_entry e s themes t hmem latest hl⟩

/-- The requests of `TestPluginInfoBulk` and `TestThemeInfoBulk`, with one identifier more
that has no stored version, on the store of the dummy data. -/
theorem bulk_info_answers_witness :
    (∃ response,
      handlePluginInfoBulk Env.calm dummyStore
          (some [("contact-form-7/wp-contact-form-7.php", "contact-form-7"),
                 ("akismet/akismet.php", "akismet"), ("hello.php", "hello-dolly")]) =
        { status := 200, body := .entries response } ∧
      (get "hello.php" response).isSome = false ∧
      get "akismet/akismet.php" response =
        some [("slug", .str "akismet"), ("new_version", .str "5.1"),
          ("url", .str "https://wordpress.org/plugins/akismet/"),
          ("package", .str "https://wp-mirror.blogvault.net/plugin/akismet.5.1.zip")]) ∧
    (∃ response,
      handleThemeInfoBulk Env.calm dummyStore
          (some ["twentytwentythree", "twentytwentytwo", "twentytwenty"]) =
        { status := 200, body := .entries response } ∧
      (get "twentytwenty" response).isSome = false ∧
      get "twentytwentytwo" response =
        some [("theme", .str "twentytwentytwo"), ("new_version", .str "1.4"),
          ("url", .str "https://wordpress.org/themes/twentytwentytwo/"),
          ("package", .str "https://wp-mirror.blogvault.net/theme/twentytwentytwo.1.4.zip")]) := by
  obtain ⟨⟨rp, hrp, hp⟩, ⟨rt, hrt, ht⟩⟩ :=
    bulk_info_answers Env.calm dummyStore
      [("contact-form-7/wp-contact-form-7.php", "contact-form-7"),
       ("akismet/akismet.php", "akismet"), ("hello.php", "hello-dolly")]
      ["twentytwentythree", "twentytwentytwo", "twentytwenty"]
      (fun _ => rfl) (by decide) (by decide)
  refine ⟨⟨rp, hrp, ?_, ?_⟩, ⟨rt, hrt, ?_, ?_⟩⟩
  · cases hget : (get "hello.php" rp).isSome with
    | false => rfl
    | true => exact absurd ((hp "hello.php").1.mp hget).2 (by decide)
  · obtain ⟨latest, hl, hentry⟩ :=
      (hp "akismet/akismet.php").2 "akismet" (by decide) (by decide)
    have h2 : GetLatestPluginVersion Env.calm dummyStore "akismet/akismet.php" =
        .ok sampleAkismet := by decide
    rw [h2] at hl
    rw [hentry, ← Except.ok.inj hl]
    rfl
  · cases hget : (get "twentytwenty" rt).isSome with
    | false => rfl
    | true => exact absurd ((ht "twentytwenty").1.mp hget).2 (by decide)
  · obtain ⟨latest, hl, hentry⟩ := (ht "twentytwentytwo").2 (by decide) (by decide)
    have h2 : GetLatestThemeVersion Env.calm dummyStore "twentytwentytwo" =
        .ok sampleThemeTwo := by decide
    rw [h2] at hl
    rw [hentry, ← Except.ok.inj hl]
    rfl

end WpMirror
